import Mathlib

/-!
Verification of the rendering core of RenderFrameworkRIS.

This file shallowly embeds the parts of the source relevant to the frozen
claims: the sampling library (src/random.h), the BSDF utilities
(src/materials.h), the path tracer (src/algorithms/render_pt.cpp), the
progressive photon mapper (src/algorithms/render_ppm.cpp) and the BVH
(src/bvh.h, src/bvh.cpp).  Machine floats are modelled as exact numbers:
`ℚ` where the code is branch-and-compare arithmetic, `ℝ` where the code
uses `sqrt`, `cos`, `sin` or `pow`.  Headers of the repository that are
not part of src (float3.h, color.h, intersect.h, hash.h, samplers.h,
scene.h) are modelled from the spec where needed; each such definition
carries a doc comment saying so.
-/

/-- Three-component vector, the model of `float3` (and of `rgb`, which the
source also stores as three components).  `float3.h` is not in src; the
component layout is taken from the spec's data model. -/
structure Vec3 (α : Type) where
  x : α
  y : α
  z : α
deriving DecidableEq, Repr

namespace Vec3

variable {α : Type}

def add [Add α] (a b : Vec3 α) : Vec3 α := ⟨a.x + b.x, a.y + b.y, a.z + b.z⟩

def sub [Sub α] (a b : Vec3 α) : Vec3 α := ⟨a.x - b.x, a.y - b.y, a.z - b.z⟩

def neg [Neg α] (a : Vec3 α) : Vec3 α := ⟨-a.x, -a.y, -a.z⟩

/-- Componentwise product (the source's `rgb * rgb` and `float3 * float3`). -/
def cmul [Mul α] (a b : Vec3 α) : Vec3 α := ⟨a.x * b.x, a.y * b.y, a.z * b.z⟩

/-- Scalar times vector. -/
def scale [Mul α] (k : α) (a : Vec3 α) : Vec3 α := ⟨k * a.x, k * a.y, k * a.z⟩

/-- Vector divided by a scalar. -/
def sdiv [Div α] (a : Vec3 α) (k : α) : Vec3 α := ⟨a.x / k, a.y / k, a.z / k⟩

instance [Add α] : Add (Vec3 α) := ⟨add⟩

instance [Sub α] : Sub (Vec3 α) := ⟨sub⟩

instance [Neg α] : Neg (Vec3 α) := ⟨neg⟩

instance [Mul α] : Mul (Vec3 α) := ⟨cmul⟩

def dot [Add α] [Mul α] (a b : Vec3 α) : α := a.x * b.x + a.y * b.y + a.z * b.z

def cross [Sub α] [Mul α] (a b : Vec3 α) : Vec3 α :=
  ⟨a.y * b.z - a.z * b.y, a.z * b.x - a.x * b.z, a.x * b.y - a.y * b.x⟩

/-- Componentwise minimum (`min(float3, float3)` from float3.h, modelled
from the spec's bounding-box data model). -/
def vmin [Min α] (a b : Vec3 α) : Vec3 α := ⟨min a.x b.x, min a.y b.y, min a.z b.z⟩

/-- Componentwise maximum. -/
def vmax [Max α] (a b : Vec3 α) : Vec3 α := ⟨max a.x b.x, max a.y b.y, max a.z b.z⟩

theorem add_def [Add α] (a b : Vec3 α) :
    a + b = ⟨a.x + b.x, a.y + b.y, a.z + b.z⟩ := rfl

theorem sub_def [Sub α] (a b : Vec3 α) :
    a - b = ⟨a.x - b.x, a.y - b.y, a.z - b.z⟩ := rfl

theorem neg_def [Neg α] (a : Vec3 α) : -a = ⟨-a.x, -a.y, -a.z⟩ := rfl

theorem mul_def [Mul α] (a b : Vec3 α) :
    a * b = ⟨a.x * b.x, a.y * b.y, a.z * b.z⟩ := rfl

theorem ext_iff' {a b : Vec3 α} : a = b ↔ a.x = b.x ∧ a.y = b.y ∧ a.z = b.z := by
  constructor
  · intro h; subst h; exact ⟨rfl, rfl, rfl⟩
  · intro ⟨h1, h2, h3⟩; cases a; cases b; cases h1; cases h2; cases h3; rfl

end Vec3

/-- Colors; `rgb` in the source (color.h is not in src, the three-channel
layout is modelled from the spec). -/
abbrev Rgb := Vec3 ℚ

/-- The luminance weight vector used by `dot(c, luminance)` in
src/random.h.  `Modelled from the spec:` color.h is not in src; the spec
calls this quantity "luma", modelled as the Rec. 709 luma weights (which
sum to 1). -/
def luminance : Rgb := ⟨2126/10000, 7152/10000, 722/10000⟩

/-- `russian_roulette` from src/random.h lines 135-137:
`std::min(max, dot(c, luminance) * 2.0f)`. -/
def russian_roulette (c : Rgb) (maxQ : ℚ) : ℚ :=
  min maxQ (Vec3.dot c luminance * 2)

/-- Local shading frame, `LocalCoords` from src/random.h lines 11-17,
over `ℝ` because the sampling code uses sqrt/cos/sin. -/
structure LocalCoordsR where
  n : Vec3 ℝ
  t : Vec3 ℝ
  bt : Vec3 ℝ

/-- Direction sample, `DirSample` from src/random.h lines 31-36. -/
structure DirSampleR where
  dir : Vec3 ℝ
  pdf : ℝ

/-- `cosine_hemisphere_pdf` from src/random.h lines 55-61.  The function
body is `return 1.0f;` followed by the unreachable lines
`return c / pi; return 1.0f;` (the first and last are annotated
"This is probably incorrect" in the source).  Only the first return
executes, so the evaluator is constantly 1. -/
def cosine_hemisphere_pdf (_c : ℝ) : ℝ := 1

/-- `sample_cosine_hemisphere` from src/random.h lines 64-86.  The code
computes `r = sqrt(u)`, `theta = 2*pi*v`, `x = r*cos(theta)`,
`y = r*sin(theta)`, `z = sqrt(1 - x*x - y*y)` and returns
`DirSample(float3(x, y, z), z / pi)`.  The `coords` parameter is never
used: the local-frame direction is returned without being transformed
into the frame. -/
noncomputable def sample_cosine_hemisphere (_coords : LocalCoordsR) (u v : ℝ) : DirSampleR :=
  let r := Real.sqrt u
  let theta := 2 * Real.pi * v
  let x := r * Real.cos theta
  let y := r * Real.sin theta
  let z := Real.sqrt (1 - x * x - y * y)
  ⟨⟨x, y, z⟩, z / Real.pi⟩

/-- The direction the claim (and spec §4.3) prescribes for
`sample_cosine_hemisphere`: `r cos(2πv) · t + r sin(2πv) · bt + √(1−r²) · n`
with `r = √u`, i.e. the local sample transformed into the shading frame.
This is the claim-side reference definition, for comparison with the
source-side `sample_cosine_hemisphere`. -/
noncomputable def spec_cosine_hemisphere_dir (coords : LocalCoordsR) (u v : ℝ) : Vec3 ℝ :=
  let r := Real.sqrt u
  Vec3.scale (r * Real.cos (2 * Real.pi * v)) coords.t +
    Vec3.scale (r * Real.sin (2 * Real.pi * v)) coords.bt +
    Vec3.scale (Real.sqrt (1 - r ^ 2)) coords.n

/-- Shading surface data over `ℝ`, the part of `SurfaceParams`
(src/materials.h lines 26-32) needed by `DiffuseBsdf::pdf`. -/
structure SurfR where
  coords : LocalCoordsR

/-- `DiffuseBsdf::pdf` from src/materials.h lines 118-120:
`cosine_hemisphere_pdf(std::max(dot(in, surf.coords.n), 0.0f))`. -/
def DiffuseBsdf_pdf (inDir : Vec3 ℝ) (surf : SurfR) : ℝ :=
  cosine_hemisphere_pdf (max (Vec3.dot inDir surf.coords.n) 0)

/-- The concrete shading frame used as failing input for C2/C3:
`n = (-1,0,0)`, `t = (0,1,0)`, `bt = (0,0,-1)` (orthonormal, right-handed). -/
def c3coords : LocalCoordsR := ⟨⟨-1, 0, 0⟩, ⟨0, 1, 0⟩, ⟨0, 0, -1⟩⟩

/-- Claim C2: the cosine-hemisphere pdf evaluator is claimed to return
`c / pi`, and `DiffuseBsdf::pdf` to return `max(dot(in, n), 0) / pi`.
The code returns the constant 1 (the `return c / pi;` line in
src/random.h line 59 is dead code behind `return 1.0f;` on line 58).
At the failing input `c = 1/2` the code yields 1 while the claimed value
is `(1/2)/π ≠ 1`; likewise `DiffuseBsdf::pdf` yields 1 at a direction
whose cosine with the shading normal is 1/2.  A constant-1 pdf also
integrates to 2π, not 1, over the hemisphere. -/
theorem c2_pdf_is_constant_one :
    cosine_hemisphere_pdf (1 / 2) = 1 ∧
    (1 / 2 : ℝ) / Real.pi ≠ 1 ∧
    DiffuseBsdf_pdf ⟨0, 1 / 2, 0⟩ ⟨⟨⟨0, 1, 0⟩, ⟨1, 0, 0⟩, ⟨0, 0, 1⟩⟩⟩ = 1 := by
  refine ⟨rfl, ?_, rfl⟩
  intro h
  have hpi : Real.pi = 1 / 2 := by
    field_simp at h
    linarith
  have := Real.pi_gt_three
  rw [hpi] at this
  norm_num at this

/-- Claim C3: `sample_cosine_hemisphere(coords, u, v)` is claimed to
return `r cos(2πv)·t + r sin(2πv)·bt + √(1−r²)·n` (the sample expressed
in the given shading frame, inside the hemisphere around `coords.n`).
The code never uses `coords`: at `coords = c3coords`, `u = 1`, `v = 0`
it returns direction `(1, 0, 0)`, while the claimed direction is
`t = (0, 1, 0)`; the returned direction even has negative cosine with
`coords.n = (-1, 0, 0)`, so it lies outside the claimed hemisphere.
The source's own comments say the hemisphere is defined by `coords`
(src/random.h lines 65-67) and the sibling sampler has a dangling
"Transform direction to world space" comment (line 122), so the missing
transform is a slip in the code, not intent. -/
theorem c3_sample_ignores_frame :
    (sample_cosine_hemisphere c3coords 1 0).dir = ⟨1, 0, 0⟩ ∧
    spec_cosine_hemisphere_dir c3coords 1 0 = ⟨0, 1, 0⟩ ∧
    ((⟨1, 0, 0⟩ : Vec3 ℝ) ≠ ⟨0, 1, 0⟩) ∧
    Vec3.dot (sample_cosine_hemisphere c3coords 1 0).dir c3coords.n < 0 := by
  have hdir : (sample_cosine_hemisphere c3coords 1 0).dir = ⟨1, 0, 0⟩ := by
    show (⟨Real.sqrt 1 * Real.cos (2 * Real.pi * 0), Real.sqrt 1 * Real.sin (2 * Real.pi * 0),
      Real.sqrt (1 - Real.sqrt 1 * Real.cos (2 * Real.pi * 0) * (Real.sqrt 1 * Real.cos (2 * Real.pi * 0))
        - Real.sqrt 1 * Real.sin (2 * Real.pi * 0) * (Real.sqrt 1 * Real.sin (2 * Real.pi * 0)))⟩ : Vec3 ℝ) = ⟨1, 0, 0⟩
    rw [Vec3.ext_iff']
    norm_num [Real.sqrt_one, Real.cos_zero, Real.sin_zero]
  refine ⟨hdir, ?_, ?_, ?_⟩
  · show (Vec3.scale (Real.sqrt 1 * Real.cos (2 * Real.pi * 0)) c3coords.t +
      Vec3.scale (Real.sqrt 1 * Real.sin (2 * Real.pi * 0)) c3coords.bt +
      Vec3.scale (Real.sqrt (1 - Real.sqrt 1 ^ 2)) c3coords.n) = ⟨0, 1, 0⟩
    rw [Vec3.ext_iff']
    norm_num [Real.sqrt_one, Real.cos_zero, Real.sin_zero, c3coords, Vec3.scale,
      Vec3.add_def]
  · intro h
    rw [Vec3.ext_iff'] at h
    norm_num at h
  · rw [hdir]
    norm_num [Vec3.dot, c3coords]

/-- The per-iteration kernel radius of the progressive photon mapper,
src/algorithms/render_ppm.cpp line 97:
`radius = base_radius / std::pow(float(iter), 0.5f * (1.0f - alpha))`
with `alpha = 0.75f` (line 48). -/
noncomputable def ppm_radius (base : ℝ) (iter : ℕ) : ℝ :=
  base / (iter : ℝ) ^ ((1 / 2 : ℝ) * (1 - 3 / 4))

/-- Claim C8: the kernel radius at iteration `i ≥ 1` equals
`base_radius · i^(−(1−α)/2)` with `α = 3/4` exactly, hence
`radius 1 = base_radius`, and the radius is strictly decreasing in the
iteration index (for a positive base radius). -/
theorem c8_radius_schedule (base : ℝ) (i j : ℕ) (hi : 1 ≤ i) (hij : i < j)
    (hbase : 0 < base) :
    ppm_radius base i = base * (i : ℝ) ^ (-(1 - (3 / 4 : ℝ)) / 2) ∧
    ppm_radius base 1 = base ∧
    ppm_radius base j < ppm_radius base i := by
  have hi0 : (0 : ℝ) < (i : ℝ) := by exact_mod_cast Nat.lt_of_lt_of_le Nat.zero_lt_one hi
  have hexp : -(1 - (3 / 4 : ℝ)) / 2 = -((1 / 2 : ℝ) * (1 - 3 / 4)) := by norm_num
  refine ⟨?_, ?_, ?_⟩
  · rw [ppm_radius, hexp, Real.rpow_neg (le_of_lt hi0), div_eq_mul_inv]
  · rw [ppm_radius]
    norm_num [Real.one_rpow]
  · rw [ppm_radius, ppm_radius]
    have hij' : (i : ℝ) < (j : ℝ) := by exact_mod_cast hij
    have hpow : (i : ℝ) ^ ((1 / 2 : ℝ) * (1 - 3 / 4)) < (j : ℝ) ^ ((1 / 2 : ℝ) * (1 - 3 / 4)) :=
      Real.rpow_lt_rpow (le_of_lt hi0) hij' (by norm_num)
    have hipos : (0 : ℝ) < (i : ℝ) ^ ((1 / 2 : ℝ) * (1 - 3 / 4)) :=
      Real.rpow_pos_of_pos hi0 _
    exact div_lt_div_of_pos_left hbase hipos hpow

/-- Witness for C8 at `base = 1`, `i = 1`, `j = 2`. -/
theorem c8_radius_schedule_witness :
    ppm_radius 1 1 = 1 ∧ ppm_radius 1 2 < ppm_radius 1 1 := by
  have h := c8_radius_schedule 1 1 2 (by norm_num) (by norm_num) (by norm_num)
  exact ⟨h.2.1, by rw [h.2.1]; rw [h.2.1] at h; exact h.2.2⟩

/-- The pair of values fed to the worker-seed hash by the renderers
(src/algorithms/render_pt.cpp line 31, render_ppm.cpp line 109,
render_debug.cpp line 26): `sampler_seed(xmin ^ ymin, iter)`.
`sampler_seed` itself lives in hash.h, which is not in src; only the
argument pair is embedded, because two calls with equal argument pairs
yield equal seeds whatever the hash is. -/
def sampler_seed_input (xmin ymin iter : ℕ) : ℕ × ℕ := (xmin ^^^ ymin, iter)

/-- Counterexample for C9: the distinct 32×32 tiles with origins
`(0, 32)` and `(32, 0)` feed identical values to the seed hash in the
same iteration (`0 XOR 32 = 32 XOR 0`), so their samplers are seeded
identically, contradicting the claimed distinctness for every pair of
distinct tiles. -/
theorem c9_tile_seed_collision :
    sampler_seed_input 0 32 1 = sampler_seed_input 32 0 1 ∧
    ((0, 32) : ℕ × ℕ) ≠ (32, 0) := by
  constructor
  · rfl
  · decide

/-- Claim C9 (amended): the worker seed depends on the tile only through
`xmin XOR ymin`, so in a fixed iteration two tiles receive identical
seed-hash inputs exactly when their origin XORs agree (distinct tiles
with equal XOR, such as `(0,32)` and `(32,0)`, share one random stream);
the same tile in distinct iterations feeds distinct inputs to the hash. -/
theorem c9_seed_input_characterization :
    (∀ x1 y1 x2 y2 it : ℕ,
      sampler_seed_input x1 y1 it = sampler_seed_input x2 y2 it ↔ x1 ^^^ y1 = x2 ^^^ y2) ∧
    (∀ x y i j : ℕ, i ≠ j → sampler_seed_input x y i ≠ sampler_seed_input x y j) := by
  constructor
  · intro x1 y1 x2 y2 it
    constructor
    · intro h
      exact (Prod.mk.injEq _ _ _ _).mp h |>.1
    · intro h
      rw [sampler_seed_input, sampler_seed_input, h]
  · intro x y i j hij h
    exact hij ((Prod.mk.injEq _ _ _ _).mp h).2

/-- Witness for C9 (amended) at concrete tiles and iterations. -/
theorem c9_seed_input_characterization_witness :
    sampler_seed_input 0 32 1 = sampler_seed_input 32 0 1 ∧
    sampler_seed_input 0 32 1 ≠ sampler_seed_input 0 32 2 := by
  constructor
  · exact (c9_seed_input_characterization.1 0 32 32 0 1).mpr (by decide)
  · exact c9_seed_input_characterization.2 0 32 1 2 (by decide)

/-- Ray with origin, direction and t-interval (spec §3; float3.h's `Ray`
is not in src). -/
structure RayQ where
  org : Vec3 ℚ
  dir : Vec3 ℚ
  tmin : ℚ
  tmax : ℚ
deriving DecidableEq, Repr

/-- Hit record: triangle index (negative means miss), parametric `t`,
barycentric `(u, v)` (spec §3). -/
structure HitQ where
  tri : Int
  t : ℚ
  u : ℚ
  v : ℚ
deriving DecidableEq, Repr

/-- Local shading frame over `ℚ` (mirror of `LocalCoords`). -/
structure LocalCoordsQ where
  n : Vec3 ℚ
  t : Vec3 ℚ
  bt : Vec3 ℚ
deriving DecidableEq, Repr

/-- `SurfaceParams` from src/materials.h lines 26-32. -/
structure SurfQ where
  entering : Bool
  point : Vec3 ℚ
  uvx : ℚ
  uvy : ℚ
  face_normal : Vec3 ℚ
  coords : LocalCoordsQ
deriving DecidableEq, Repr

/-- `BsdfSample` from src/materials.h lines 16-23 (`in` is a Lean keyword,
hence `inDir`). -/
structure BsdfSampleQ where
  inDir : Vec3 ℚ
  pdf : ℚ
  color : Rgb
deriving DecidableEq, Repr

/-- `Bsdf::make_sample` from src/materials.h lines 89-95: returns the
sample unchanged when `pdf > 0` and the direction is on the expected side
of the geometric surface, and otherwise `BsdfSample(dir, 1.0f, rgb(0.0f))`
(pdf ONE, color zero). -/
def make_sample (below_surface : Bool) (dir : Vec3 ℚ) (pdf : ℚ) (color : Rgb)
    (surf : SurfQ) : BsdfSampleQ :=
  let sign := Vec3.dot dir surf.face_normal
  if 0 < pdf ∧ ((below_surface = true ∧ sign < 0) ∨ (below_surface = false ∧ 0 < sign)) then
    ⟨dir, pdf, color⟩
  else
    ⟨dir, 1, ⟨0, 0, 0⟩⟩

/-- `Renderer::offset` from src/renderer.h line 21 (`1e-3f`). -/
def Renderer.offset : ℚ := 1 / 1000

/-- `FLT_MAX`, the default `tmax` of a ray constructed as
`Ray(org, dir, tmin)`.  `Modelled from the spec:` the Ray constructor
lives in a header that is not in src; the spec's t-interval defaults to
the largest float, which is exactly `2^128 - 2^104`. -/
def floatMax : ℚ := 2 ^ 128 - 2 ^ 104

/-- Deterministic model of `Sampler`/`UniformSampler` (samplers.h is not
in src).  `Modelled from the spec:` a pseudo-random uniform stream; here
the stream of values is explicit and `operator()` pops the next value. -/
structure SamplerQ where
  vals : ℕ → ℚ
  idx : ℕ

/-- One call of `sampler()`. -/
def SamplerQ.next (s : SamplerQ) : ℚ × SamplerQ :=
  (s.vals s.idx, ⟨s.vals, s.idx + 1⟩)

/-- BSDF shape classification, src/materials.h lines 61-65. -/
inductive BsdfType where
  | Diffuse
  | Glossy
  | Specular
deriving DecidableEq, Repr

/-- Model of the virtual `Bsdf` interface (src/materials.h lines 58-98):
a record of the virtual methods seen by the renderers. -/
structure BsdfI where
  ty : BsdfType
  eval : Vec3 ℚ → SurfQ → Vec3 ℚ → Rgb
  sample : SamplerQ → SurfQ → Vec3 ℚ → BsdfSampleQ × SamplerQ
  pdf : Vec3 ℚ → SurfQ → Vec3 ℚ → ℚ

/-- `Modelled from the spec:` the light-sample record returned by
`Light::sample_direct` (lights.h is not in src): position on the light,
pdf in area measure, cosine at the light, intensity (spec §3). -/
structure DirectSampleQ where
  pos : Vec3 ℚ
  pdf_area : ℚ
  pdf_dir : ℚ
  cos : ℚ
  intensity : Rgb

/-- `Modelled from the spec:` `Light::emission` result (spec §3). -/
structure EmissionValueQ where
  intensity : Rgb

/-- `Modelled from the spec:` `Light::sample_emission` result (spec §3). -/
structure EmissionSampleQ where
  pos : Vec3 ℚ
  dir : Vec3 ℚ
  pdf_area : ℚ
  pdf_dir : ℚ
  intensity : Rgb

/-- `Modelled from the spec:` the virtual `Light` interface (spec §3). -/
structure LightI where
  has_area : Bool
  sample_direct : Vec3 ℚ → SamplerQ → DirectSampleQ × SamplerQ
  sample_emission : SamplerQ → EmissionSampleQ × SamplerQ
  emission : Vec3 ℚ → ℚ → ℚ → EmissionValueQ

/-- `Material` from src/materials.h lines 38-48. -/
structure MaterialQ where
  bsdf : Option BsdfI
  emitter : Option LightI

/-- `Modelled from the spec:` the `Scene` contract used by the renderers
(scene.h is not in src): `intersect`, `occluded`, `material(hit)`,
`surface_params(ray, hit)` and the light list (spec §2 item 6). -/
structure SceneI where
  intersect : RayQ → HitQ
  surface_params : RayQ → HitQ → SurfQ
  material : HitQ → MaterialQ
  occluded : RayQ → Bool
  lights : List LightI

/-- `Modelled from the spec:` square root on ℚ standing in for `sqrtf`
(float3.h's `length`/`normalize` are not in src).  Exact on perfect
squares; the concrete scenes below only take square roots of perfect
squares. -/
def ratSqrt (q : ℚ) : ℚ := (Nat.sqrt q.num.toNat : ℚ) / (Nat.sqrt q.den : ℚ)

/-- `length(v)`, modelled from the spec via `ratSqrt`. -/
def qlength (v : Vec3 ℚ) : ℚ := ratSqrt (Vec3.dot v v)

/-- `normalize(v)`, modelled from the spec via `ratSqrt`. -/
def qnormalize (v : Vec3 ℚ) : Vec3 ℚ := Vec3.sdiv v (qlength v)

/-- The NEE block of `PathTracingRenderer::path_trace`
(src/algorithms/render_pt.cpp lines 88-152), as the color addend and the
advanced sampler.  The code also computes `w_brdf = bsdf_pdf / sum_pdf`
(line 128) but never uses it; an occluded or out-of-range light sample
contributes zero. -/
def path_trace_nee (scene : SceneI) (bsdf : BsdfI) (surf : SurfQ) (out : Vec3 ℚ)
    (thr : Rgb) (smp : SamplerQ) : Rgb × SamplerQ :=
  let (r, smp) := smp.next
  let light_idx := (Int.floor (r * (scene.lights.length : ℚ))).toNat
  let light_select_prob : ℚ := 1 / (scene.lights.length : ℚ)
  match scene.lights.get? light_idx with
  | none => (⟨0, 0, 0⟩, smp)
  | some light =>
    let (ls, smp) := light.sample_direct surf.point smp
    let light_dir := qnormalize (ls.pos - surf.point)
    let dist := qlength (ls.pos - surf.point)
    let shadow_ray : RayQ := ⟨surf.point, light_dir, Renderer.offset, dist - Renderer.offset⟩
    if scene.occluded shadow_ray then (⟨0, 0, 0⟩, smp)
    else
      let bsdf_val := bsdf.eval light_dir surf out
      let bsdf_pdf := bsdf.pdf light_dir surf out
      let light_pdf := if light.has_area then ls.pdf_area * dist * dist / ls.cos else ls.pdf_dir
      let sum_pdf := light_pdf + bsdf_pdf
      let w_ne := if 0 < sum_pdf then light_pdf / sum_pdf else 0
      let cos_theta := |Vec3.dot light_dir surf.coords.n|
      let li := if light.has_area then ls.intensity
                else Vec3.scale (1 / (dist * dist)) ls.intensity
      (Vec3.scale (cos_theta * w_ne / (light_pdf * light_select_prob)) (thr * bsdf_val * li),
        smp)

/-- The loop body of `PathTracingRenderer::path_trace`
(src/algorithms/render_pt.cpp lines 61-173), with explicit fuel
(`remaining` = iterations left) and the running `path_len`.  Direct hits
on an emitter add `throughput * emission` (at full weight, lines 70-78)
whenever the surface is entered, before any specularity test. -/
def path_trace_loop (scene : SceneI) :
    ℕ → ℕ → RayQ → Rgb → Rgb → SamplerQ → Rgb
  | 0, _, _, color, _, _ => color
  | remaining + 1, path_len, ray, color0, thr0, smp0 =>
    let hit := scene.intersect ray
    if hit.tri < 0 then color0
    else
      let surf := scene.surface_params ray hit
      let mat := scene.material hit
      let out := -ray.dir
      let color1 :=
        match mat.emitter with
        | some light =>
          if surf.entering then color0 + thr0 * (light.emission out hit.u hit.v).intensity
          else color0
        | none => color0
      match mat.bsdf with
      | none => color1
      | some bsdf =>
        let (color2, smp1) :=
          if bsdf.ty ≠ BsdfType.Specular ∧ scene.lights.isEmpty = false then
            let (add, smp') := path_trace_nee scene bsdf surf out thr0 smp0
            (color1 + add, smp')
          else (color1, smp0)
        let cont := fun (thr : Rgb) (smp : SamplerQ) =>
          let (bs, smp) := bsdf.sample smp surf out
          if bs.pdf ≤ 0 then color2
          else
            let cos_theta := |Vec3.dot bs.inDir surf.coords.n|
            let thr' := thr * Vec3.scale (cos_theta / bs.pdf) bs.color
            path_trace_loop scene remaining (path_len + 1)
              ⟨surf.point, bs.inDir, Renderer.offset, floatMax⟩ color2 thr' smp
        if path_len > 3 then
          let rr_prob := min (95 / 100 : ℚ) (max thr0.x (max thr0.y thr0.z))
          let (r2, smp2) := smp1.next
          if rr_prob < r2 then color2
          else cont (Vec3.sdiv thr0 rr_prob) smp2
        else cont thr0 smp1

/-- `PathTracingRenderer::path_trace` (src/algorithms/render_pt.cpp
lines 55-175): `ray.tmin = offset`, then the loop with
`color = 0`, `throughput = 1`. -/
def path_trace (scene : SceneI) (max_path_len : ℕ) (ray : RayQ) (smp : SamplerQ) : Rgb :=
  path_trace_loop scene max_path_len 0
    ⟨ray.org, ray.dir, Renderer.offset, ray.tmax⟩ ⟨0, 0, 0⟩ ⟨1, 1, 1⟩ smp

/-- The emitter-hit weight that claim C5 (and spec §4.4) prescribes:
`bsdfPdf / (bsdfPdf + lightPdf_at_that_direction)` after a non-specular
bounce, full weight after a specular bounce.  Claim-side reference. -/
def spec_emitter_hit_weight (prevSpecular : Bool) (bsdfPdf lightPdf : ℚ) : ℚ :=
  if prevSpecular then 1 else bsdfPdf / (bsdfPdf + lightPdf)

/-- Surface at the first (reflecting) vertex of the C5 test scene. -/
def c5surf0 : SurfQ :=
  { entering := true, point := ⟨0, 0, 0⟩, uvx := 0, uvy := 0,
    face_normal := ⟨0, 0, -1⟩, coords := ⟨⟨0, 1, 0⟩, ⟨1, 0, 0⟩, ⟨0, 0, 1⟩⟩ }

/-- Surface at the emitter vertex of the C5 test scene. -/
def c5surf1 : SurfQ :=
  { entering := true, point := ⟨0, 1, 0⟩, uvx := 0, uvy := 0,
    face_normal := ⟨0, -1, 0⟩, coords := ⟨⟨0, -1, 0⟩, ⟨1, 0, 0⟩, ⟨0, 0, 1⟩⟩ }

/-- Area light of the C5 test scene: its surface is at `(0,1,0)`, one
unit away from the reflecting vertex, with `pdf_area = 1`, `cos = 1`,
so the solid-angle pdf of reaching it from the vertex is
`pdf_area * dist² / cos = 1`. -/
def c5light (em : Rgb) : LightI :=
  { has_area := true,
    sample_direct := fun _ smp => (⟨⟨0, 1, 0⟩, 1, 1, 1, ⟨1, 1, 1⟩⟩, smp),
    sample_emission := fun smp => (⟨⟨0, 1, 0⟩, ⟨0, -1, 0⟩, 1, 1, ⟨1, 1, 1⟩⟩, smp),
    emission := fun _ _ _ => ⟨em⟩ }

/-- BSDF of the first vertex of the C5 test scene: classified as `ty`
(the parameter of interest), its `sample` returns the fixed direction
`sdir` with pdf `p` and contribution `col`, and its `pdf` evaluator
returns 1 in every direction (the bsdf-side pdf of the emitter
direction). -/
def c5bsdf (ty : BsdfType) (sdir : Vec3 ℚ) (p : ℚ) (col : Rgb) : BsdfI :=
  { ty := ty,
    eval := fun _ _ _ => ⟨1, 1, 1⟩,
    sample := fun smp _ _ => (⟨sdir, p, col⟩, smp),
    pdf := fun _ _ _ => 1 }

/-- Two-vertex test scene for C5: a primary ray from `(0,0,-1)` hits a
reflecting surface at the origin whose BSDF has classification `ty`;
the BSDF-sampled continuation ray hits the emitter at `(0,1,0)` (a
material with an emitter and no BSDF, so the path ends there).  All
shadow rays are occluded, so NEE contributes nothing and the returned
color is exactly the emitter-hit contribution. -/
def c5Scene (ty : BsdfType) (sdir : Vec3 ℚ) (p : ℚ) (col em : Rgb) : SceneI :=
  { intersect := fun r => if r.org = ⟨0, 0, -1⟩ then ⟨0, 1, 0, 0⟩ else ⟨1, 1, 0, 0⟩,
    surface_params := fun _ h => if h.tri = 0 then c5surf0 else c5surf1,
    material := fun h =>
      if h.tri = 0 then ⟨some (c5bsdf ty sdir p col), none⟩
      else ⟨none, some (c5light em)⟩,
    occluded := fun _ => true,
    lights := [c5light em] }

/-- The primary ray of the C5 test scene. -/
def c5ray : RayQ := ⟨⟨0, 0, -1⟩, ⟨0, 0, 1⟩, 0, floatMax⟩

/-- The all-zeros sampler stream. -/
def zeroSampler : SamplerQ := ⟨fun _ => 0, 0⟩

/-- Evaluation of `path_trace` on the C5 test scene: independently of the
first vertex's BSDF classification `ty`, the returned color is the
full-weight emitter contribution
`(|dot(sdir, n)| / p) · col · em` — throughput after the first bounce
times the emission, with no MIS factor. -/
theorem c5Scene_run (ty : BsdfType) (sdir : Vec3 ℚ) (p : ℚ) (col em : Rgb) (m : ℕ)
    (hp : 0 < p) :
    path_trace (c5Scene ty sdir p col em) (m + 2) c5ray zeroSampler =
      Vec3.scale (|Vec3.dot sdir ⟨0, 1, 0⟩| / p) (Vec3.cmul col em) := by
  have hnp : ¬ (p ≤ 0) := not_le.mpr hp
  have hds : (BsdfType.Diffuse = BsdfType.Specular) = False :=
    eq_false (by intro h; cases h)
  have hgs : (BsdfType.Glossy = BsdfType.Specular) = False :=
    eq_false (by intro h; cases h)
  show path_trace (c5Scene ty sdir p col em) (m + 1 + 1) c5ray zeroSampler = _
  cases ty <;>
    (norm_num [path_trace, path_trace_loop, c5Scene, c5ray, zeroSampler, c5surf0, c5surf1,
      c5bsdf, c5light, path_trace_nee, SamplerQ.next, qnormalize, qlength, ratSqrt,
      Renderer.offset, hnp, hds, hgs, apply_ite, Vec3.add_def, Vec3.sub_def, Vec3.neg_def,
      Vec3.mul_def, Vec3.scale, Vec3.sdiv, Vec3.cmul, Vec3.dot, Vec3.ext_iff'];
     ring_nf;
     exact ⟨trivial, trivial, trivial⟩)

/-- Counterexample for C5: in the C5 test scene with a Diffuse
(non-specular) first vertex, the BSDF-sampled ray hits the emitter; the
bsdf-side pdf of that direction is 1 and the light-side solid-angle pdf
is `pdf_area·dist²/cos = 1`, so the claim prescribes the contribution
weighted by `1/(1+1) = 1/2`; but `path_trace` returns the full-weight
contribution `(1,1,1)` (src/algorithms/render_pt.cpp lines 70-78 add
emitter hits unweighted; the balance weight `w_brdf` computed on line
128 is never used). -/
theorem c5_counterexample :
    path_trace (c5Scene BsdfType.Diffuse ⟨0, 1, 0⟩ 1 ⟨1, 1, 1⟩ ⟨1, 1, 1⟩) 64 c5ray zeroSampler
      = ⟨1, 1, 1⟩ ∧
    spec_emitter_hit_weight false 1 1 = 1 / 2 ∧
    Vec3.scale (spec_emitter_hit_weight false 1 1) ⟨1, 1, 1⟩ ≠ (⟨1, 1, 1⟩ : Rgb) := by
  refine ⟨?_, ?_, ?_⟩
  · have h := c5Scene_run BsdfType.Diffuse ⟨0, 1, 0⟩ 1 ⟨1, 1, 1⟩ ⟨1, 1, 1⟩ 62 (by norm_num)
    norm_num [Vec3.dot, Vec3.scale, Vec3.cmul] at h
    convert h using 2
  · norm_num [spec_emitter_hit_weight]
  · norm_num [spec_emitter_hit_weight, Vec3.scale, Vec3.ext_iff']

/-- Claim C5 (amended): in the path tracer a BSDF-sampled ray that
directly hits an emitter adds the emitter's contribution at FULL weight
(`throughput · emission`) whenever the surface is entered, regardless of
whether the previous vertex was specular: on the C5 test scene the
returned color is the same for all three BSDF classifications of the
previous vertex and carries no balance-heuristic factor.  The balance
weight appears only in the NEE branch (`w_ne`); its BSDF-side companion
`w_brdf` is computed but unused (src/algorithms/render_pt.cpp line 128). -/
theorem c5_emitter_hits_full_weight (ty : BsdfType) (sdir : Vec3 ℚ) (p : ℚ)
    (col em : Rgb) (m : ℕ) (hp : 0 < p) :
    path_trace (c5Scene ty sdir p col em) (m + 2) c5ray zeroSampler =
      Vec3.scale (|Vec3.dot sdir ⟨0, 1, 0⟩| / p) (Vec3.cmul col em) :=
  c5Scene_run ty sdir p col em m hp

/-- Witness for C5 (amended): with a Specular and with a Diffuse first
vertex the result is the same full-weight value. -/
theorem c5_emitter_hits_full_weight_witness :
    path_trace (c5Scene BsdfType.Specular ⟨0, 1, 0⟩ 1 ⟨1, 1, 1⟩ ⟨1, 1, 1⟩) 64 c5ray zeroSampler
      = Vec3.scale (|Vec3.dot (⟨0, 1, 0⟩ : Vec3 ℚ) ⟨0, 1, 0⟩| / 1) (Vec3.cmul ⟨1, 1, 1⟩ ⟨1, 1, 1⟩) :=
  c5_emitter_hits_full_weight BsdfType.Specular ⟨0, 1, 0⟩ 1 ⟨1, 1, 1⟩ ⟨1, 1, 1⟩ 62 (by norm_num)

/-- Surface used by the C7 theorems, with geometric normal `(0,0,1)`. -/
def c7surf : SurfQ :=
  { entering := true, point := ⟨0, 0, 0⟩, uvx := 0, uvy := 0,
    face_normal := ⟨0, 0, 1⟩, coords := ⟨⟨0, 0, 1⟩, ⟨1, 0, 0⟩, ⟨0, 1, 0⟩⟩ }

/-- Counterexample for C7: a degenerate sample (here: input pdf 0) is
claimed to be returned with `pdf = 0`; `Bsdf::make_sample`
(src/materials.h line 94) actually returns it with `pdf = 1.0f` (and
color 0), so the caller's `pdf <= 0` test does NOT terminate the path. -/
theorem c7_counterexample :
    (make_sample false ⟨0, 0, 1⟩ 0 ⟨1, 1, 1⟩ c7surf).pdf = 1 ∧ (1 : ℚ) ≠ 0 := by
  constructor
  · norm_num [make_sample, c7surf, Vec3.dot]
  · norm_num

/-- Claim C7 (amended): whenever a BSDF sample is degenerate
(non-positive pdf, or direction parallel to the surface or on the wrong
side), `Bsdf::make_sample` returns the sample with `pdf = 1` and
`color = 0`; the caller's `pdf <= 0` test therefore does not fire, and
the path instead dies through its throughput becoming zero. -/
theorem c7_degenerate_sample (below : Bool) (dir : Vec3 ℚ) (pdf : ℚ) (color : Rgb)
    (surf : SurfQ)
    (hdeg : pdf ≤ 0 ∨ (below = true ∧ 0 ≤ Vec3.dot dir surf.face_normal) ∨
      (below = false ∧ Vec3.dot dir surf.face_normal ≤ 0)) :
    make_sample below dir pdf color surf = ⟨dir, 1, ⟨0, 0, 0⟩⟩ ∧
    ¬ ((make_sample below dir pdf color surf).pdf ≤ 0) := by
  have hcond : ¬ (0 < pdf ∧ ((below = true ∧ Vec3.dot dir surf.face_normal < 0) ∨
      (below = false ∧ 0 < Vec3.dot dir surf.face_normal))) := by
    rintro ⟨hpdf, hside⟩
    rcases hdeg with h | ⟨hb, hge⟩ | ⟨hb, hle⟩
    · exact absurd hpdf (not_lt.mpr h)
    · rcases hside with ⟨_, hlt⟩ | ⟨hb', _⟩
      · exact absurd hlt (not_lt.mpr hge)
      · rw [hb] at hb'; cases hb'
    · rcases hside with ⟨hb', _⟩ | ⟨_, hgt⟩
      · rw [hb] at hb'; cases hb'
      · exact absurd hgt (not_lt.mpr hle)
  rw [make_sample]
  simp only [hcond, if_false]
  exact ⟨by trivial, by norm_num⟩

/-- Witness for C7 (amended) at a concrete degenerate input. -/
theorem c7_degenerate_sample_witness :
    make_sample false ⟨0, 0, 1⟩ 0 ⟨1, 1, 1⟩ c7surf = ⟨⟨0, 0, 1⟩, 1, ⟨0, 0, 0⟩⟩ :=
  (c7_degenerate_sample false ⟨0, 0, 1⟩ 0 ⟨1, 1, 1⟩ c7surf (Or.inl le_rfl)).1

/-- `Photon` from src/algorithms/render_ppm.cpp lines 21-32. -/
structure PhotonQ where
  contrib : Rgb
  surf : SurfQ
  in_dir : Vec3 ℚ

/-- Loop body of `PhotonMappingRenderer::trace_photons`
(src/algorithms/render_ppm.cpp lines 153-222), with explicit fuel and
the running `path_len`; `acc` is the photon vector being appended to.
Russian Roulette sits at the END of the non-glossy iteration, guarded by
`path_len > 3`, with survival probability
`russian_roulette(throughput, 0.75f)`; the glossy branch `continue`s
past it. -/
def trace_photons_loop (scene : SceneI) (light : LightI) :
    ℕ → ℕ → RayQ → Rgb → SamplerQ → List PhotonQ → List PhotonQ
  | 0, _, _, _, _, acc => acc
  | remaining + 1, path_len, ray, thr, smp, acc =>
    let hit := scene.intersect ray
    if hit.tri < 0 then acc
    else
      let mat := scene.material hit
      let surf := scene.surface_params ray hit
      let out := -ray.dir
      match mat.bsdf with
      | none => acc
      | some bsdf =>
        if bsdf.ty = BsdfType.Glossy then
          let (ls, smp) := light.sample_direct surf.point smp
          let wi := qnormalize (ls.pos - surf.point)
          let dist := qlength (ls.pos - surf.point)
          let acc :=
            if 0 < ls.cos ∧
                scene.occluded ⟨surf.point, wi, Renderer.offset, dist - Renderer.offset⟩ = false then
              acc ++ [⟨thr, surf, out⟩]
            else acc
          let (bs, smp) := bsdf.sample smp surf out
          if bs.pdf ≤ 0 then acc
          else
            trace_photons_loop scene light remaining (path_len + 1)
              ⟨surf.point, bs.inDir, Renderer.offset, floatMax⟩
              (thr * Vec3.sdiv bs.color bs.pdf) smp acc
        else
          let (bs, smp) := bsdf.sample smp surf out
          if bs.pdf ≤ 0 then acc
          else
            let acc := if bsdf.ty ≠ BsdfType.Specular then acc ++ [⟨thr, surf, out⟩] else acc
            let thr := thr * Vec3.sdiv bs.color bs.pdf
            let ray' : RayQ := ⟨surf.point, bs.inDir, Renderer.offset, floatMax⟩
            if path_len > 3 then
              let rr_prob := russian_roulette thr (3 / 4)
              let (r, smp) := smp.next
              if rr_prob < r then acc
              else
                trace_photons_loop scene light remaining (path_len + 1) ray'
                  (Vec3.sdiv thr rr_prob) smp acc
            else trace_photons_loop scene light remaining (path_len + 1) ray' thr smp acc

/-- `PhotonMappingRenderer::trace_photons`
(src/algorithms/render_ppm.cpp lines 135-152): uniform light selection
(with the `% size` of line 138), emission sampling, initial throughput
`intensity / (pdf_area · pdf_dir · (1/|L|))`, then the bounce loop. -/
def trace_photons (scene : SceneI) (max_path_len : ℕ) (smp : SamplerQ) : List PhotonQ :=
  let (r, smp) := smp.next
  let nL := scene.lights.length
  let light_idx := (Int.floor (r * (nL : ℚ))).toNat % nL
  match scene.lights.get? light_idx with
  | none => []
  | some light =>
    let light_select_prob : ℚ := 1 / (nL : ℚ)
    let (emission, smp) := light.sample_emission smp
    let ray : RayQ := ⟨emission.pos, emission.dir, Renderer.offset, floatMax⟩
    let total_light_pdf := emission.pdf_area * emission.pdf_dir * light_select_prob
    let thr := Vec3.sdiv emission.intensity total_light_pdf
    trace_photons_loop scene light max_path_len 0 ray thr smp []

/-- Claim-side reference loop for C6, identical to `trace_photons_loop`
except for the Russian-Roulette block, which follows the claim/spec
wording: applied after bounce index 2 (`path_len > 2`) with survival
probability `q = min(0.95, luma(contrib))`. -/
def spec_trace_photons_loop (scene : SceneI) (light : LightI) :
    ℕ → ℕ → RayQ → Rgb → SamplerQ → List PhotonQ → List PhotonQ
  | 0, _, _, _, _, acc => acc
  | remaining + 1, path_len, ray, thr, smp, acc =>
    let hit := scene.intersect ray
    if hit.tri < 0 then acc
    else
      let mat := scene.material hit
      let surf := scene.surface_params ray hit
      let out := -ray.dir
      match mat.bsdf with
      | none => acc
      | some bsdf =>
        if bsdf.ty = BsdfType.Glossy then
          let (ls, smp) := light.sample_direct surf.point smp
          let wi := qnormalize (ls.pos - surf.point)
          let dist := qlength (ls.pos - surf.point)
          let acc :=
            if 0 < ls.cos ∧
                scene.occluded ⟨surf.point, wi, Renderer.offset, dist - Renderer.offset⟩ = false then
              acc ++ [⟨thr, surf, out⟩]
            else acc
          let (bs, smp) := bsdf.sample smp surf out
          if bs.pdf ≤ 0 then acc
          else
            spec_trace_photons_loop scene light remaining (path_len + 1)
              ⟨surf.point, bs.inDir, Renderer.offset, floatMax⟩
              (thr * Vec3.sdiv bs.color bs.pdf) smp acc
        else
          let (bs, smp) := bsdf.sample smp surf out
          if bs.pdf ≤ 0 then acc
          else
            let acc := if bsdf.ty ≠ BsdfType.Specular then acc ++ [⟨thr, surf, out⟩] else acc
            let thr := thr * Vec3.sdiv bs.color bs.pdf
            let ray' : RayQ := ⟨surf.point, bs.inDir, Renderer.offset, floatMax⟩
            if path_len > 2 then
              let q := min (95 / 100 : ℚ) (Vec3.dot thr luminance)
              let (r, smp) := smp.next
              if q < r then acc
              else
                spec_trace_photons_loop scene light remaining (path_len + 1) ray'
                  (Vec3.sdiv thr q) smp acc
            else spec_trace_photons_loop scene light remaining (path_len + 1) ray' thr smp acc

/-- Claim-side reference for C6 (header identical to `trace_photons`). -/
def spec_trace_photons (scene : SceneI) (max_path_len : ℕ) (smp : SamplerQ) : List PhotonQ :=
  let (r, smp) := smp.next
  let nL := scene.lights.length
  let light_idx := (Int.floor (r * (nL : ℚ))).toNat % nL
  match scene.lights.get? light_idx with
  | none => []
  | some light =>
    let light_select_prob : ℚ := 1 / (nL : ℚ)
    let (emission, smp) := light.sample_emission smp
    let ray : RayQ := ⟨emission.pos, emission.dir, Renderer.offset, floatMax⟩
    let total_light_pdf := emission.pdf_area * emission.pdf_dir * light_select_prob
    let thr := Vec3.sdiv emission.intensity total_light_pdf
    spec_trace_photons_loop scene light max_path_len 0 ray thr smp []

/-- Diffuse BSDF of the C6 test scene: fixed sample direction, pdf 1,
contribution `(1,1,1)`, so the throughput stays `(1,1,1)` until the
first Russian-Roulette division. -/
def c6bsdf : BsdfI :=
  { ty := BsdfType.Diffuse,
    eval := fun _ _ _ => ⟨1, 1, 1⟩,
    sample := fun smp _ _ => (⟨⟨0, 0, 1⟩, 1, ⟨1, 1, 1⟩⟩, smp),
    pdf := fun _ _ _ => 1 }

/-- Light of the C6 test scene: emission pdfs 1 and intensity `(1,1,1)`,
so the initial photon-path throughput is `(1,1,1)`. -/
def c6light : LightI :=
  { has_area := true,
    sample_direct := fun _ smp => (⟨⟨0, 1, 0⟩, 1, 1, 1, ⟨1, 1, 1⟩⟩, smp),
    sample_emission := fun smp => (⟨⟨0, 0, 0⟩, ⟨0, 0, 1⟩, 1, 1, ⟨1, 1, 1⟩⟩, smp),
    emission := fun _ _ _ => ⟨⟨1, 1, 1⟩⟩ }

/-- C6 test scene: every ray hits a diffuse surface, so a photon is
stored at every bounce and the photon count exposes where Russian
Roulette terminated the path. -/
def c6Scene : SceneI :=
  { intersect := fun _ => ⟨0, 1, 0, 0⟩,
    surface_params := fun _ _ => c7surf,
    material := fun _ => ⟨some c6bsdf, none⟩,
    occluded := fun _ => true,
    lights := [c6light] }

/-- Sampler stream for C6: the light-selection draw is 0, every later
draw (in particular every Russian-Roulette draw) is `q`. -/
def c6stream (q : ℚ) : SamplerQ := ⟨fun n => if n = 0 then 0 else q, 0⟩

/-- Counterexample for C6: on the C6 test scene with six allowed bounces
and all Russian-Roulette draws equal to `0.9`, the code's photon pass
stores 5 photons (the path dies at the first code RR check, bounce
index 4, because `0.9 > min(0.75, 2·luma) = 0.75`), while a pass
following the claim — RR after bounce index 2 with
`q = min(0.95, luma(contrib))` — would survive every check
(`0.9 ≤ 0.95`) and store 6 photons. -/
theorem Vec3.eta {α : Type} (a : Vec3 α) : (⟨a.x, a.y, a.z⟩ : Vec3 α) = a := rfl

theorem bsdfType_dg : (BsdfType.Diffuse = BsdfType.Glossy) = False :=
  eq_false (by intro h; cases h)

theorem bsdfType_ds : (BsdfType.Diffuse = BsdfType.Specular) = False :=
  eq_false (by intro h; cases h)

theorem bsdfType_gs : (BsdfType.Glossy = BsdfType.Specular) = False :=
  eq_false (by intro h; cases h)

/-- The continuation ray every bounce of the C6 scene produces. -/
def c6ray' : RayQ := ⟨⟨0, 0, 0⟩, ⟨0, 0, 1⟩, Renderer.offset, floatMax⟩

/-- One iteration of the code's photon loop on the C6 scene: a photon is
always stored, the throughput is unchanged by the unit BSDF, and Russian
Roulette runs only when `path_len > 3`, with probability
`russian_roulette(throughput, 0.75)`. -/
theorem c6_code_step (rem pl : ℕ) (ray : RayQ) (thr : Rgb) (smp : SamplerQ)
    (acc : List PhotonQ) :
    trace_photons_loop c6Scene c6light (rem + 1) pl ray thr smp acc =
      if pl > 3 then
        (if russian_roulette thr (3 / 4) < smp.vals smp.idx then
          acc ++ [⟨thr, c7surf, -ray.dir⟩]
        else
          trace_photons_loop c6Scene c6light rem (pl + 1) c6ray'
            (Vec3.sdiv thr (russian_roulette thr (3 / 4)))
            ⟨smp.vals, smp.idx + 1⟩ (acc ++ [⟨thr, c7surf, -ray.dir⟩]))
      else
        trace_photons_loop c6Scene c6light rem (pl + 1) c6ray' thr smp
          (acc ++ [⟨thr, c7surf, -ray.dir⟩]) := by
  norm_num [trace_photons_loop, c6Scene, c6bsdf, c7surf, c6ray', SamplerQ.next,
    Vec3.sdiv, Vec3.mul_def, Vec3.eta, bsdfType_dg, bsdfType_ds]

/-- One iteration of the claim-side photon loop on the C6 scene: Russian
Roulette runs when `path_len > 2` with probability
`min(0.95, luma(throughput))`. -/
theorem c6_spec_step (rem pl : ℕ) (ray : RayQ) (thr : Rgb) (smp : SamplerQ)
    (acc : List PhotonQ) :
    spec_trace_photons_loop c6Scene c6light (rem + 1) pl ray thr smp acc =
      if pl > 2 then
        (if min (95 / 100 : ℚ) (Vec3.dot thr luminance) < smp.vals smp.idx then
          acc ++ [⟨thr, c7surf, -ray.dir⟩]
        else
          spec_trace_photons_loop c6Scene c6light rem (pl + 1) c6ray'
            (Vec3.sdiv thr (min (95 / 100 : ℚ) (Vec3.dot thr luminance)))
            ⟨smp.vals, smp.idx + 1⟩ (acc ++ [⟨thr, c7surf, -ray.dir⟩]))
      else
        spec_trace_photons_loop c6Scene c6light rem (pl + 1) c6ray' thr smp
          (acc ++ [⟨thr, c7surf, -ray.dir⟩]) := by
  norm_num [spec_trace_photons_loop, c6Scene, c6bsdf, c7surf, c6ray', SamplerQ.next,
    Vec3.sdiv, Vec3.mul_def, Vec3.eta, bsdfType_dg, bsdfType_ds]

/-- Entry into the photon loop on the C6 scene: after the light-selection
draw the sampler sits at index 1 and the initial throughput is
`(1,1,1)`. -/
theorem c6_code_entry (n : ℕ) (s : SamplerQ) (h0 : s.vals 0 = 0) (hidx : s.idx = 0) :
    trace_photons c6Scene n s =
      trace_photons_loop c6Scene c6light n 0 c6ray' ⟨1, 1, 1⟩ ⟨s.vals, 1⟩ [] := by
  norm_num [trace_photons, c6Scene, c6light, c6ray', SamplerQ.next, hidx, h0, Vec3.sdiv]

/-- Entry into the claim-side photon loop on the C6 scene. -/
theorem c6_spec_entry (n : ℕ) (s : SamplerQ) (h0 : s.vals 0 = 0) (hidx : s.idx = 0) :
    spec_trace_photons c6Scene n s =
      spec_trace_photons_loop c6Scene c6light n 0 c6ray' ⟨1, 1, 1⟩ ⟨s.vals, 1⟩ [] := by
  norm_num [spec_trace_photons, c6Scene, c6light, c6ray', SamplerQ.next, hidx, h0, Vec3.sdiv]

/-- Counterexample for C6: on the C6 test scene with six allowed bounces
and all Russian-Roulette draws equal to `0.9`, the code's photon pass
stores 5 photons (the path dies at the FIRST code RR check, bounce index
4, because `0.9 > russian_roulette(throughput, 0.75) = min(0.75, 2·luma)
= 0.75`), while a pass following the claim — RR after bounce index 2
with `q = min(0.95, luma(contrib))` — survives every check
(`0.9 ≤ 0.95`) and stores 6 photons. -/
theorem c6_counterexample :
    (trace_photons c6Scene 6 (c6stream (9 / 10))).length = 5 ∧
    (spec_trace_photons c6Scene 6 (c6stream (9 / 10))).length = 6 ∧
    (5 : ℕ) ≠ 6 := by
  have hval : ∀ n : ℕ, n ≠ 0 → (c6stream (9 / 10)).vals n = 9 / 10 := by
    intro n hn; simp [c6stream, hn]
  refine ⟨?_, ?_, by norm_num⟩
  · rw [c6_code_entry 6 _ (by norm_num [c6stream]) rfl]
    rw [show (6 : ℕ) = 5 + 1 from rfl, c6_code_step]
    norm_num
    rw [show (5 : ℕ) = 4 + 1 from rfl, c6_code_step]
    norm_num
    rw [show (4 : ℕ) = 3 + 1 from rfl, c6_code_step]
    norm_num
    rw [show (3 : ℕ) = 2 + 1 from rfl, c6_code_step]
    norm_num
    rw [show (2 : ℕ) = 1 + 1 from rfl, c6_code_step]
    norm_num [hval 1 (by norm_num), russian_roulette, luminance, Vec3.dot]
  · rw [c6_spec_entry 6 _ (by norm_num [c6stream]) rfl]
    rw [show (6 : ℕ) = 5 + 1 from rfl, c6_spec_step]
    norm_num
    rw [show (5 : ℕ) = 4 + 1 from rfl, c6_spec_step]
    norm_num
    rw [show (4 : ℕ) = 3 + 1 from rfl, c6_spec_step]
    norm_num
    rw [show (3 : ℕ) = 2 + 1 from rfl, c6_spec_step]
    norm_num [hval 1 (by norm_num), luminance, Vec3.dot, Vec3.sdiv]
    rw [show (2 : ℕ) = 1 + 1 from rfl, c6_spec_step]
    norm_num [hval 2 (by norm_num), luminance, Vec3.dot, Vec3.sdiv]
    rw [show (1 : ℕ) = 0 + 1 from rfl, c6_spec_step]
    norm_num [hval 3 (by norm_num), luminance, Vec3.dot, Vec3.sdiv,
      spec_trace_photons_loop]

/-- Claim C6 (amended): in the PPM photon pass Russian Roulette is
applied only after bounce index 3 (`path_len > 3`), with survival
probability `russian_roulette(throughput, 0.75) = min(0.75, 2·luma)`:
on the C6 scene a six-bounce path survives its first RR check exactly
when the draw is at most `russian_roulette((1,1,1), 0.75) = 0.75`
(6 photons stored vs 5), and a four-bounce path (bounce indices 0-3)
stores all 4 photons whatever the draws are — no RR at bounce index 3,
contrary to the claimed "after bounce index 2". -/
theorem c6_rr_after_three_with_code_prob (q : ℚ) :
    (trace_photons c6Scene 6 (c6stream q)).length =
      (if q ≤ russian_roulette ⟨1, 1, 1⟩ (3 / 4) then 6 else 5) ∧
    (trace_photons c6Scene 4 (c6stream q)).length = 4 := by
  have hrr : russian_roulette ⟨1, 1, 1⟩ (3 / 4) = 3 / 4 := by
    norm_num [russian_roulette, luminance, Vec3.dot]
  have hval : ∀ n : ℕ, n ≠ 0 → (c6stream q).vals n = q := by
    intro n hn; simp [c6stream, hn]
  rw [hrr]
  constructor
  · rw [c6_code_entry 6 _ (by norm_num [c6stream]) rfl]
    rw [show (6 : ℕ) = 5 + 1 from rfl, c6_code_step]
    norm_num
    rw [show (5 : ℕ) = 4 + 1 from rfl, c6_code_step]
    norm_num
    rw [show (4 : ℕ) = 3 + 1 from rfl, c6_code_step]
    norm_num
    rw [show (3 : ℕ) = 2 + 1 from rfl, c6_code_step]
    norm_num
    rw [show (2 : ℕ) = 1 + 1 from rfl, c6_code_step]
    norm_num [hval 1 (by norm_num), hrr]
    by_cases hq : q ≤ 3 / 4
    · rw [if_neg (not_lt.mpr hq)]
      rw [show (1 : ℕ) = 0 + 1 from rfl, c6_code_step]
      norm_num [trace_photons_loop, hq]
    · rw [if_pos (not_le.mp hq)]
      norm_num [hq]
  · rw [c6_code_entry 4 _ (by norm_num [c6stream]) rfl]
    rw [show (4 : ℕ) = 3 + 1 from rfl, c6_code_step]
    norm_num
    rw [show (3 : ℕ) = 2 + 1 from rfl, c6_code_step]
    norm_num
    rw [show (2 : ℕ) = 1 + 1 from rfl, c6_code_step]
    norm_num
    rw [show (1 : ℕ) = 0 + 1 from rfl, c6_code_step]
    norm_num [trace_photons_loop]

/-- Triangle by its three vertices.  `PrecomputedTri` (intersect.h, not
in src) is `Modelled from the spec:` triangle data reorganized for the
Möller-Trumbore kernel, semantically the triangle itself. -/
structure TriQ where
  v0 : Vec3 ℚ
  v1 : Vec3 ℚ
  v2 : Vec3 ℚ
deriving DecidableEq, Repr

/-- `Bvh::Node` from src/bvh.h lines 39-54: bounding-box corners `mn`,
`mx`; `cf` is the C++ union of `child` (inner) and `first_prim` (leaf);
`na` the union of `num_prims` (leaf) and `axis` (inner, stored
non-positive). -/
structure BvhNode where
  mn : Vec3 ℚ
  cf : Int
  mx : Vec3 ℚ
  na : Int
deriving DecidableEq, Repr

/-- `Bvh::Node::is_leaf` (src/bvh.h line 52): `num_prims > 0`. -/
def BvhNode.is_leaf (n : BvhNode) : Bool := decide (0 < n.na)

/-- The BVH state (src/bvh.h lines 69-71): node array, leaf-slot to
source-triangle map `prim_ids`, and the per-slot triangle array `tris`. -/
structure BvhQ where
  nodes : List BvhNode
  prim_ids : List ℕ
  tris : List TriQ

/-- `Bvh::Node::intersect` from src/bvh.cpp lines 620-631.  The C++
reads the node as 8 floats and indexes them with per-axis octant offsets
(0 or 4 for x, 1 or 5 for y, 2 or 6 for z), which selects `mn` for the
entry plane on a positive-direction axis and `mx` otherwise; the integer
fields at offsets 3 and 7 are never read.  Returns `(t0, t1)`; a hit
exists iff `t0 ≤ t1`. -/
def BvhNode.intersect (n : BvhNode) (invDir orgDivDir : Vec3 ℚ) (tmin tmax : ℚ)
    (dxp dyp dzp : Bool) : ℚ × ℚ :=
  let t0x := (if dxp then n.mn.x else n.mx.x) * invDir.x - orgDivDir.x
  let t1x := (if dxp then n.mx.x else n.mn.x) * invDir.x - orgDivDir.x
  let t0y := (if dyp then n.mn.y else n.mx.y) * invDir.y - orgDivDir.y
  let t1y := (if dyp then n.mx.y else n.mn.y) * invDir.y - orgDivDir.y
  let t0z := (if dzp then n.mn.z else n.mx.z) * invDir.z - orgDivDir.z
  let t1z := (if dzp then n.mx.z else n.mn.z) * invDir.z - orgDivDir.z
  (max (max t0x t0y) (max tmin t0z), min (min t1x t1y) (min tmax t1z))

/-- `Modelled from the spec:` the Möller-Trumbore ray-triangle kernel
(`intersect_ray_tri`, intersect.h, not in src), without the upper
parametric bound: solves `org + t·dir = v0 + u·e1 + v·e2` by Cramer's
rule and accepts when the barycentrics are inside the triangle and
`t > ray.tmin` (spec §4.2: "update hit if t is in (tmin, current_t_max)";
the `t < current_t_max` half lives in `intersect_ray_tri` below). -/
def mtRaw (ray : RayQ) (tri : TriQ) : Option (ℚ × ℚ × ℚ) :=
  let e1 := tri.v1 - tri.v0
  let e2 := tri.v2 - tri.v0
  let pv := Vec3.cross ray.dir e2
  let det := Vec3.dot e1 pv
  if det = 0 then none
  else
    let tv := ray.org - tri.v0
    let u := Vec3.dot tv pv / det
    let qv := Vec3.cross tv e1
    let v := Vec3.dot ray.dir qv / det
    let t := Vec3.dot e2 qv / det
    if 0 ≤ u ∧ 0 ≤ v ∧ u + v ≤ 1 ∧ ray.tmin < t then some (t, u, v)
    else none

/-- `intersect_ray_tri(ray, tri, hit.t, hit.u, hit.v)`: succeeds (and
reports the new `t, u, v`) iff the raw intersection exists with
`t` below the current closest `tcur`. -/
def intersect_ray_tri (ray : RayQ) (tri : TriQ) (tcur : ℚ) : Option (ℚ × ℚ × ℚ) :=
  match mtRaw ray tri with
  | some (t, u, v) => if t < tcur then some (t, u, v) else none
  | none => none

/-- The `INTERSECT_LEAF` macro of `Bvh::traverse` (src/bvh.cpp lines
663-671): scan the `cnt` slots starting at `j`, updating the hit on
every success (`hit.tri = j`, the SLOT index); in any-hit mode return
at the first success (the Bool marks the early return).  `none` models a
slot index outside the `tris` array (undefined behavior in C++). -/
def leafScan (b : BvhQ) (ray : RayQ) (anyHit : Bool) :
    ℕ → ℕ → HitQ → Option (HitQ × Bool)
  | _, 0, hit => some (hit, false)
  | j, cnt + 1, hit =>
    match b.tris.get? j with
    | none => none
    | some tri =>
      match intersect_ray_tri ray tri hit.t with
      | some (t, u, v) =>
        if anyHit then some (⟨(j : Int), t, u, v⟩, true)
        else leafScan b ray anyHit (j + 1) cnt ⟨(j : Int), t, u, v⟩
      | none => leafScan b ray anyHit (j + 1) cnt hit

/-- The traversal loop of `Bvh::traverse` (src/bvh.cpp lines 654-698),
with explicit fuel.  One iteration intersects BOTH children of `top`
with the current `hit.t` (before any leaf is scanned), scans leaf
children left-then-right, then pushes/continues: if both children are
inner and hit, the nearer is continued and the farther pushed; the stack
holds the `-1` sentinel at the bottom and C++ capacity 64 is enforced
(overflow, like any out-of-bounds node access, is C++ undefined behavior
and modelled as `none`). -/
def travStep (b : BvhQ) (ray : RayQ) (anyHit : Bool) (invDir orgDivDir : Vec3 ℚ)
    (dxp dyp dzp : Bool) (top : Int) (stack : List Int) (hit : HitQ) :
    Option (Sum (HitQ × Bool) (Int × List Int × HitQ)) :=
  if top < 0 then none
  else
    match b.nodes.get? top.toNat, b.nodes.get? (top.toNat + 1) with
    | some left, some right =>
      let sl := left.intersect invDir orgDivDir ray.tmin hit.t dxp dyp dzp
      let sr := right.intersect invDir orgDivDir ray.tmin hit.t dxp dyp dzp
      let resL : Option (HitQ × Bool × Int) :=
        if sl.1 ≤ sl.2 then
          if left.is_leaf then
            (leafScan b ray anyHit left.cf.toNat left.na.toNat hit).map
              (fun p => (p.1, p.2, -1))
          else some (hit, false, left.cf)
        else some (hit, false, -1)
      match resL with
      | none => none
      | some (hit1, el, c0) =>
        if el then some (Sum.inl (hit1, true))
        else
          let resR : Option (HitQ × Bool × Int) :=
            if sr.1 ≤ sr.2 then
              if right.is_leaf then
                (leafScan b ray anyHit right.cf.toNat right.na.toNat hit1).map
                  (fun p => (p.1, p.2, -1))
              else some (hit1, false, right.cf)
            else some (hit1, false, -1)
          match resR with
          | none => none
          | some (hit2, er, c1) =>
            if er then some (Sum.inl (hit2, true))
            else
              if 0 ≤ c0 ∧ 0 ≤ c1 then
                let pushv := if sl.1 < sr.1 then c1 else c0
                let contv := if sl.1 < sr.1 then c0 else c1
                if 64 ≤ stack.length then none
                else some (Sum.inr (contv, pushv :: stack, hit2))
              else if 0 ≤ c1 then some (Sum.inr (c1, stack, hit2))
              else if 0 ≤ c0 then some (Sum.inr (c0, stack, hit2))
              else
                match stack with
                | [] => none
                | t :: rest =>
                  if t < 0 then some (Sum.inl (hit2, false))
                  else some (Sum.inr (t, rest, hit2))
    | _, _ => none

def travGo (b : BvhQ) (ray : RayQ) (anyHit : Bool) (invDir orgDivDir : Vec3 ℚ)
    (dxp dyp dzp : Bool) : ℕ → Int → List Int → HitQ → Option (HitQ × Bool)
  | 0, _, _, _ => none
  | fuel + 1, top, stack, hit =>
    match travStep b ray anyHit invDir orgDivDir dxp dyp dzp top stack hit with
    | none => none
    | some (Sum.inl r) => some r
    | some (Sum.inr (t, s, h)) =>
      travGo b ray anyHit invDir orgDivDir dxp dyp dzp fuel t s h

/-- `Bvh::traverse<any>` from src/bvh.cpp lines 633-701: initialize
`hit = (-1, ray.tmax, 0, 0)`, octant from the direction signs,
`inv_dir = 1/dir`, `org_div_dir = org * inv_dir`, start at the root's
child pair with the sentinel stack, and finally remap `hit.tri` through
`prim_ids` — the remap is reached only when the loop falls through,
which an any-hit early return does not (it returns from inside
`INTERSECT_LEAF`).  The C++ loop has no fuel; `fuel` bounds the number
of iterations and the equivalence theorem quantifies over every
sufficient fuel. -/
def BvhQ.traverse (anyHit : Bool) (b : BvhQ) (ray : RayQ) (fuel : ℕ) : Option HitQ :=
  match b.nodes.get? 0 with
  | none => none
  | some root =>
    let invDir : Vec3 ℚ := ⟨1 / ray.dir.x, 1 / ray.dir.y, 1 / ray.dir.z⟩
    let orgDivDir := ray.org * invDir
    let dxp := decide (0 < ray.dir.x)
    let dyp := decide (0 < ray.dir.y)
    let dzp := decide (0 < ray.dir.z)
    match travGo b ray anyHit invDir orgDivDir dxp dyp dzp fuel root.cf [-1]
        ⟨-1, ray.tmax, 0, 0⟩ with
    | none => none
    | some (h, early) =>
      if early then some h
      else if 0 ≤ h.tri then
        match b.prim_ids.get? h.tri.toNat with
        | some pid => some ⟨(pid : Int), h.t, h.u, h.v⟩
        | none => none
      else some h

/-- One step of brute-force closest-hit: test source triangle `i`
against the current hit.  Claim-side reference (spec §8 item 3). -/
def bruteForceStep (ray : RayQ) (src : List TriQ) (i : ℕ) (h : HitQ) : HitQ :=
  match src.get? i with
  | some tri =>
    match intersect_ray_tri ray tri h.t with
    | some (t, u, v) => ⟨(i : Int), t, u, v⟩
    | none => h
  | none => h

/-- Brute-force closest-hit over all source triangles in index order,
starting from the miss record `(-1, ray.tmax, 0, 0)`.  Claim-side
reference definition for C1. -/
def bruteForce (src : List TriQ) (ray : RayQ) : HitQ :=
  (List.range src.length).foldl (fun h i => bruteForceStep ray src i h)
    ⟨-1, ray.tmax, 0, 0⟩

/-- Point inside a node's axis-aligned box (inclusive). -/
def inBox (nd : BvhNode) (p : Vec3 ℚ) : Prop :=
  nd.mn.x ≤ p.x ∧ p.x ≤ nd.mx.x ∧ nd.mn.y ≤ p.y ∧ p.y ≤ nd.mx.y ∧
  nd.mn.z ≤ p.z ∧ p.z ≤ nd.mx.z

/-- All three triangle vertices inside the node's box (hence, by
convexity, the whole triangle). -/
def triInBox (tri : TriQ) (nd : BvhNode) : Prop :=
  inBox nd tri.v0 ∧ inBox nd tri.v1 ∧ inBox nd tri.v2

/-- Box of `n1` contained in box of `n2`. -/
def boxSub (n1 n2 : BvhNode) : Prop :=
  n2.mn.x ≤ n1.mn.x ∧ n1.mx.x ≤ n2.mx.x ∧ n2.mn.y ≤ n1.mn.y ∧ n1.mx.y ≤ n2.mx.y ∧
  n2.mn.z ≤ n1.mn.z ∧ n1.mx.z ≤ n2.mx.z

theorem inBox_mono {n1 n2 : BvhNode} {p : Vec3 ℚ} (hs : boxSub n1 n2)
    (hp : inBox n1 p) : inBox n2 p := by
  obtain ⟨a1, a2, a3, a4, a5, a6⟩ := hs
  obtain ⟨b1, b2, b3, b4, b5, b6⟩ := hp
  exact ⟨le_trans a1 b1, le_trans b2 a2, le_trans a3 b3, le_trans b4 a4,
    le_trans a5 b5, le_trans b6 a6⟩

theorem triInBox_mono {tri : TriQ} {n1 n2 : BvhNode} (hs : boxSub n1 n2)
    (hp : triInBox tri n1) : triInBox tri n2 :=
  ⟨inBox_mono hs hp.1, inBox_mono hs hp.2.1, inBox_mono hs hp.2.2⟩

/-- Well-formed subtree rooted at node index `i` with depth bound `d`:
nodes exist, leaves carry real triangle slots whose triangles sit inside
the leaf's box, and each inner node's children (at the contiguous pair
`cf`, `cf+1`, per the source invariant) are well-formed with boxes
contained in the parent's box — the invariants the spec states for a
built BVH (§3 and §8 items 1-2). -/
inductive WFN (b : BvhQ) : ℕ → ℕ → Prop where
  | leaf (i d : ℕ) (nd : BvhNode) :
      b.nodes.get? i = some nd →
      nd.is_leaf = true →
      (∀ j, nd.cf.toNat ≤ j → j < nd.cf.toNat + nd.na.toNat →
        ∃ tri, b.tris.get? j = some tri ∧ triInBox tri nd) →
      WFN b i d
  | inner (i d : ℕ) (nd : BvhNode) (c : ℕ) :
      b.nodes.get? i = some nd →
      nd.is_leaf = false →
      nd.cf = (c : Int) →
      (∀ ncl, b.nodes.get? c = some ncl → boxSub ncl nd) →
      (∀ ncr, b.nodes.get? (c + 1) = some ncr → boxSub ncr nd) →
      WFN b c d →
      WFN b (c + 1) d →
      WFN b i (d + 1)

theorem WFN.mono {b : BvhQ} {i d : ℕ} (h : WFN b i d) :
    ∀ d', d ≤ d' → WFN b i d' := by
  induction h with
  | leaf i d nd h1 h2 h3 =>
    intro d' _
    exact .leaf i d' nd h1 h2 h3
  | inner i d nd c h1 h2 h3 hbl hbr _ _ ihl ihr =>
    intro d' hle
    obtain ⟨e, rfl⟩ : ∃ e, d' = e + 1 := ⟨d' - 1, by omega⟩
    exact .inner i e nd c h1 h2 h3 hbl hbr (ihl e (by omega)) (ihr e (by omega))

/-- Slot `j` belongs to some leaf of the subtree rooted at `i`. -/
inductive Under (b : BvhQ) : ℕ → ℕ → Prop where
  | leaf (i j : ℕ) (nd : BvhNode) :
      b.nodes.get? i = some nd → nd.is_leaf = true →
      nd.cf.toNat ≤ j → j < nd.cf.toNat + nd.na.toNat → Under b i j
  | innerL (i j : ℕ) (nd : BvhNode) :
      b.nodes.get? i = some nd → nd.is_leaf = false →
      Under b nd.cf.toNat j → Under b i j
  | innerR (i j : ℕ) (nd : BvhNode) :
      b.nodes.get? i = some nd → nd.is_leaf = false →
      Under b (nd.cf.toNat + 1) j → Under b i j

/-- Every slot under a well-formed subtree holds a triangle lying inside
the subtree root's box. -/
theorem under_tri {b : BvhQ} {i j : ℕ} (hu : Under b i j) :
    ∀ d, WFN b i d →
      ∃ tri nd, b.nodes.get? i = some nd ∧ b.tris.get? j = some tri ∧ triInBox tri nd := by
  induction hu with
  | leaf i j nd hnd hlf hj1 hj2 =>
    intro d hw
    cases hw with
    | leaf _ _ nd' hnd' _ h3 =>
      rw [hnd] at hnd'
      cases hnd'
      obtain ⟨tri, htri, hbox⟩ := h3 j hj1 hj2
      exact ⟨tri, nd, hnd, htri, hbox⟩
    | inner _ _ nd' c hnd' hlf' _ _ _ _ _ =>
      rw [hnd] at hnd'
      cases hnd'
      rw [hlf] at hlf'
      cases hlf'
  | innerL i j nd hnd hlf hu ih =>
    intro d hw
    cases hw with
    | leaf _ _ nd' hnd' hlf' _ =>
      rw [hnd] at hnd'
      cases hnd'
      rw [hlf] at hlf'
      cases hlf'
    | inner _ d0 nd' c hnd' _ hcf hbl _ hwl _ =>
      rw [hnd] at hnd'
      cases hnd'
      have hc : nd.cf.toNat = c := by rw [hcf]; simp
      rw [hc] at ih
      obtain ⟨tri, ndc, hndc, htri, hbox⟩ := ih d0 hwl
      exact ⟨tri, nd, hnd, htri, triInBox_mono (hbl ndc hndc) hbox⟩
  | innerR i j nd hnd hlf hu ih =>
    intro d hw
    cases hw with
    | leaf _ _ nd' hnd' hlf' _ =>
      rw [hnd] at hnd'
      cases hnd'
      rw [hlf] at hlf'
      cases hlf'
    | inner _ d0 nd' c hnd' _ hcf _ hbr _ hwr =>
      rw [hnd] at hnd'
      cases hnd'
      have hc : nd.cf.toNat = c := by rw [hcf]; simp
      rw [hc] at ih
      obtain ⟨tri, ndc, hndc, htri, hbox⟩ := ih d0 hwr
      exact ⟨tri, nd, hnd, htri, triInBox_mono (hbr ndc hndc) hbox⟩

/-- An acceptable candidate: slot `j` (under the lookup `f`) holds a
triangle whose raw intersection parameter is below the threshold. -/
def accF (f : ℕ → Option TriQ) (ray : RayQ) (j : ℕ) (tcur : ℚ) : Prop :=
  ∃ tri t u v, f j = some tri ∧ mtRaw ray tri = some (t, u, v) ∧ t < tcur

/-- `DescF f ray P h H`: `H` is the result of folding the closest-hit
update over the candidate set `P` starting from `h` — either no
candidate beats `h` and `H = h`, or `H` records a candidate of minimal
raw `t` among `P`. -/
def DescF (f : ℕ → Option TriQ) (ray : RayQ) (P : ℕ → Prop) (h H : HitQ) : Prop :=
  (H = h ∧ ∀ j, P j → ¬ accF f ray j h.t) ∨
  (∃ j tri t u v, P j ∧ f j = some tri ∧ mtRaw ray tri = some (t, u, v) ∧ t < h.t ∧
    H = ⟨(j : Int), t, u, v⟩ ∧
    ∀ j' tri' t' u' v', P j' → f j' = some tri' → mtRaw ray tri' = some (t', u', v') →
      t ≤ t')

theorem DescF_t_le {f ray P h H} (hd : DescF f ray P h H) : H.t ≤ h.t := by
  rcases hd with ⟨rfl, _⟩ | ⟨j, tri, t, u, v, _, _, _, hlt, rfl, _⟩
  · exact le_refl _
  · exact le_of_lt hlt

theorem DescF_none {f ray P h} (hno : ∀ j, P j → ¬ accF f ray j h.t) :
    DescF f ray P h h := Or.inl ⟨rfl, hno⟩

theorem DescF_congr {f ray P Q h H} (hpq : ∀ j, P j ↔ Q j)
    (hd : DescF f ray P h H) : DescF f ray Q h H := by
  rcases hd with ⟨rfl, hno⟩ | ⟨j, tri, t, u, v, hP, h1, h2, h3, h4, h5⟩
  · exact Or.inl ⟨rfl, fun j hQ => hno j ((hpq j).mpr hQ)⟩
  · exact Or.inr ⟨j, tri, t, u, v, (hpq j).mp hP, h1, h2, h3, h4,
      fun j' tri' t' u' v' hQ => h5 j' tri' t' u' v' ((hpq j').mpr hQ)⟩

theorem DescF_comp {f ray P Q h H1 H2} (hd1 : DescF f ray P h H1)
    (hd2 : DescF f ray Q H1 H2) :
    DescF f ray (fun j => P j ∨ Q j) h H2 := by
  rcases hd1 with ⟨rfl, hno1⟩ | ⟨j1, tri1, t1, u1, v1, hP1, hf1, hm1, hlt1, hH1, hmin1⟩
  · rcases hd2 with ⟨rfl, hno2⟩ | ⟨j2, tri2, t2, u2, v2, hQ2, hf2, hm2, hlt2, hH2, hmin2⟩
    · exact Or.inl ⟨rfl, fun j hj => hj.elim (hno1 j) (hno2 j)⟩
    · refine Or.inr ⟨j2, tri2, t2, u2, v2, Or.inr hQ2, hf2, hm2, hlt2, hH2, ?_⟩
      rintro j' tri' t' u' v' (hP' | hQ') hf' hm'
      · by_contra hcon
        exact hno1 j' hP' ⟨tri', t', u', v', hf', hm', lt_trans (lt_of_not_le hcon) hlt2⟩
      · exact hmin2 j' tri' t' u' v' hQ' hf' hm'
  · have hH1t : H1.t = t1 := by rw [hH1]
    rcases hd2 with ⟨rfl, hno2⟩ | ⟨j2, tri2, t2, u2, v2, hQ2, hf2, hm2, hlt2, hH2, hmin2⟩
    · refine Or.inr ⟨j1, tri1, t1, u1, v1, Or.inl hP1, hf1, hm1, hlt1, hH1, ?_⟩
      rintro j' tri' t' u' v' (hP' | hQ') hf' hm'
      · exact hmin1 j' tri' t' u' v' hP' hf' hm'
      · by_contra hcon
        refine hno2 j' hQ' ⟨tri', t', u', v', hf', hm', ?_⟩
        rw [hH1t]
        exact lt_of_not_le hcon
    · rw [hH1t] at hlt2
      refine Or.inr ⟨j2, tri2, t2, u2, v2, Or.inr hQ2, hf2, hm2, lt_trans hlt2 hlt1, hH2, ?_⟩
      rintro j' tri' t' u' v' (hP' | hQ') hf' hm'
      · exact le_of_lt (lt_of_lt_of_le hlt2 (hmin1 j' tri' t' u' v' hP' hf' hm'))
      · exact hmin2 j' tri' t' u' v' hQ' hf' hm'

/-- The point `org + t · dir` on a ray. -/
def rayAt (ray : RayQ) (t : ℚ) : Vec3 ℚ :=
  ⟨ray.org.x + t * ray.dir.x, ray.org.y + t * ray.dir.y, ray.org.z + t * ray.dir.z⟩

/-- A successful raw Möller-Trumbore intersection solves the ray-plane
system: the ray point at `t` is the barycentric combination of the
triangle's vertices (Cramer's rule), the barycentrics lie in the
triangle, and `t > tmin`. -/
theorem mtRaw_eqs {ray : RayQ} {tri : TriQ} {t u v : ℚ}
    (h : mtRaw ray tri = some (t, u, v)) :
    0 ≤ u ∧ 0 ≤ v ∧ u + v ≤ 1 ∧ ray.tmin < t ∧
    (rayAt ray t).x = (1 - u - v) * tri.v0.x + u * tri.v1.x + v * tri.v2.x ∧
    (rayAt ray t).y = (1 - u - v) * tri.v0.y + u * tri.v1.y + v * tri.v2.y ∧
    (rayAt ray t).z = (1 - u - v) * tri.v0.z + u * tri.v1.z + v * tri.v2.z := by
  simp only [mtRaw] at h
  split_ifs at h with hdet hcond
  rw [Option.some.injEq, Prod.mk.injEq] at h
  obtain ⟨ht, h⟩ := h
  rw [Prod.mk.injEq] at h
  obtain ⟨hu, hv⟩ := h
  subst ht
  subst hu
  subst hv
  obtain ⟨hu0, hv0, huv, htmin⟩ := hcond
  refine ⟨hu0, hv0, huv, htmin, ?_, ?_, ?_⟩ <;>
    (simp only [rayAt, Vec3.dot, Vec3.cross, Vec3.sub_def] at hdet ⊢;
     field_simp;
     ring)

theorem convex_low {u v a b c m : ℚ} (hu : 0 ≤ u) (hv : 0 ≤ v) (huv : u + v ≤ 1)
    (ha : m ≤ a) (hb : m ≤ b) (hc : m ≤ c) :
    m ≤ (1 - u - v) * a + u * b + v * c := by
  nlinarith [mul_nonneg (by linarith : (0:ℚ) ≤ 1 - u - v) (by linarith : (0:ℚ) ≤ a - m),
    mul_nonneg hu (by linarith : (0:ℚ) ≤ b - m),
    mul_nonneg hv (by linarith : (0:ℚ) ≤ c - m)]

theorem convex_high {u v a b c m : ℚ} (hu : 0 ≤ u) (hv : 0 ≤ v) (huv : u + v ≤ 1)
    (ha : a ≤ m) (hb : b ≤ m) (hc : c ≤ m) :
    (1 - u - v) * a + u * b + v * c ≤ m := by
  nlinarith [mul_nonneg (by linarith : (0:ℚ) ≤ 1 - u - v) (by linarith : (0:ℚ) ≤ m - a),
    mul_nonneg hu (by linarith : (0:ℚ) ≤ m - b),
    mul_nonneg hv (by linarith : (0:ℚ) ≤ m - c)]

/-- The hit point of a successful raw intersection with a triangle whose
vertices lie inside a box lies inside that box, with `t > tmin`. -/
theorem mtRaw_inBox {ray : RayQ} {tri : TriQ} {t u v : ℚ} {nd : BvhNode}
    (h : mtRaw ray tri = some (t, u, v)) (hb : triInBox tri nd) :
    inBox nd (rayAt ray t) ∧ ray.tmin < t := by
  obtain ⟨hu0, hv0, huv, htmin, hx, hy, hz⟩ := mtRaw_eqs h
  obtain ⟨⟨a1, a2, a3, a4, a5, a6⟩, ⟨b1, b2, b3, b4, b5, b6⟩, ⟨c1, c2, c3, c4, c5, c6⟩⟩ := hb
  refine ⟨⟨?_, ?_, ?_, ?_, ?_, ?_⟩, htmin⟩
  · rw [hx]; exact convex_low hu0 hv0 huv a1 b1 c1
  · rw [hx]; exact convex_high hu0 hv0 huv a2 b2 c2
  · rw [hy]; exact convex_low hu0 hv0 huv a3 b3 c3
  · rw [hy]; exact convex_high hu0 hv0 huv a4 b4 c4
  · rw [hz]; exact convex_low hu0 hv0 huv a5 b5 c5
  · rw [hz]; exact convex_high hu0 hv0 huv a6 b6 c6

theorem slab_axis {mn mx o d t : ℚ} (hd : d ≠ 0)
    (hlo : mn ≤ o + t * d) (hhi : o + t * d ≤ mx) :
    (if decide (0 < d) then mn else mx) * (1 / d) - o * (1 / d) ≤ t ∧
    t ≤ (if decide (0 < d) then mx else mn) * (1 / d) - o * (1 / d) := by
  by_cases hpos : 0 < d
  · rw [decide_eq_true hpos]
    simp only [if_true]
    constructor
    · rw [show mn * (1 / d) - o * (1 / d) = (mn - o) / d by ring, div_le_iff hpos]
      linarith
    · rw [show mx * (1 / d) - o * (1 / d) = (mx - o) / d by ring, le_div_iff hpos]
      linarith
  · have hneg : d < 0 := lt_of_le_of_ne (le_of_not_lt hpos) hd
    rw [decide_eq_false hpos]
    simp only [Bool.false_eq_true, if_false]
    constructor
    · rw [show mx * (1 / d) - o * (1 / d) = (mx - o) / d by ring, div_le_iff_of_neg hneg]
      linarith
    · rw [show mn * (1 / d) - o * (1 / d) = (mn - o) / d by ring, le_div_iff_of_neg hneg]
      linarith

/-- If the ray point at some `t ∈ [tmin, tmax]` lies inside the node's
box and no direction component is zero, the node's slab test passes. -/
theorem slab_pass {nd : BvhNode} {ray : RayQ} {t tmax : ℚ}
    (hdx : ray.dir.x ≠ 0) (hdy : ray.dir.y ≠ 0) (hdz : ray.dir.z ≠ 0)
    (hp : inBox nd (rayAt ray t)) (h1 : ray.tmin ≤ t) (h2 : t ≤ tmax) :
    (nd.intersect ⟨1 / ray.dir.x, 1 / ray.dir.y, 1 / ray.dir.z⟩
      (ray.org * ⟨1 / ray.dir.x, 1 / ray.dir.y, 1 / ray.dir.z⟩) ray.tmin tmax
      (decide (0 < ray.dir.x)) (decide (0 < ray.dir.y)) (decide (0 < ray.dir.z))).1 ≤
    (nd.intersect ⟨1 / ray.dir.x, 1 / ray.dir.y, 1 / ray.dir.z⟩
      (ray.org * ⟨1 / ray.dir.x, 1 / ray.dir.y, 1 / ray.dir.z⟩) ray.tmin tmax
      (decide (0 < ray.dir.x)) (decide (0 < ray.dir.y)) (decide (0 < ray.dir.z))).2 := by
  obtain ⟨p1, p2, p3, p4, p5, p6⟩ := hp
  simp only [rayAt] at p1 p2 p3 p4 p5 p6
  obtain ⟨qx1, qx2⟩ := slab_axis hdx p1 p2
  obtain ⟨qy1, qy2⟩ := slab_axis hdy p3 p4
  obtain ⟨qz1, qz2⟩ := slab_axis hdz p5 p6
  simp only [BvhNode.intersect, Vec3.mul_def]
  exact le_trans (max_le (max_le qx1 qy1) (max_le h1 qz1))
    (le_min (le_min qx2 qy2) (le_min h2 qz2))

theorem accF_mono {f : ℕ → Option TriQ} {ray : RayQ} {j : ℕ} {t1 t2 : ℚ}
    (h : t1 ≤ t2) : accF f ray j t1 → accF f ray j t2 := by
  rintro ⟨tri, t, u, v, h1, h2, h3⟩
  exact ⟨tri, t, u, v, h1, h2, lt_of_lt_of_le h3 h⟩

theorem irt_some_iff {ray : RayQ} {tri : TriQ} {tcur t u v : ℚ} :
    intersect_ray_tri ray tri tcur = some (t, u, v) ↔
      mtRaw ray tri = some (t, u, v) ∧ t < tcur := by
  unfold intersect_ray_tri
  cases hm : mtRaw ray tri with
  | none => simp
  | some p =>
    obtain ⟨t0, u0, v0⟩ := p
    simp only [Option.some.injEq, Prod.mk.injEq]
    by_cases hlt : t0 < tcur
    · simp only [hlt, if_true, Option.some.injEq, Prod.mk.injEq]
      constructor
      · rintro ⟨rfl, rfl, rfl⟩
        exact ⟨⟨rfl, rfl, rfl⟩, hlt⟩
      · rintro ⟨⟨rfl, rfl, rfl⟩, _⟩
        exact ⟨rfl, rfl, rfl⟩
    · simp only [hlt, if_false]
      constructor
      · intro hcon
        cases hcon
      · rintro ⟨⟨rfl, rfl, rfl⟩, hc⟩
        exact absurd hc hlt

theorem irt_none_not_acc {b : BvhQ} {ray : RayQ} {tri : TriQ} {j : ℕ} {tcur : ℚ}
    (htri : b.tris.get? j = some tri)
    (hn : intersect_ray_tri ray tri tcur = none) :
    ¬ accF b.tris.get? ray j tcur := by
  rintro ⟨tri', t, u, v, h1, h2, h3⟩
  rw [htri, Option.some.injEq] at h1
  subst h1
  rw [(irt_some_iff).mpr ⟨h2, h3⟩] at hn
  cases hn

/-- Correctness of the closest-hit leaf scan: it never returns early,
and the resulting hit is described by folding the candidates of the
scanned slot range over the incoming hit. -/
theorem leafScan_desc (b : BvhQ) (ray : RayQ) :
    ∀ (cnt j : ℕ) (hit : HitQ),
    (∀ k, j ≤ k → k < j + cnt → ∃ tri, b.tris.get? k = some tri) →
    ∃ H, leafScan b ray false j cnt hit = some (H, false) ∧
      DescF b.tris.get? ray (fun k => j ≤ k ∧ k < j + cnt) hit H := by
  intro cnt
  induction cnt with
  | zero =>
    intro j hit _
    exact ⟨hit, rfl, DescF_none (fun k hk => absurd hk.2 (by omega))⟩
  | succ n ih =>
    intro j hit hex
    obtain ⟨tri, htri⟩ := hex j le_rfl (by omega)
    have hrange : ∀ k, j + 1 ≤ k → k < (j + 1) + n → ∃ tri, b.tris.get? k = some tri :=
      fun k hk1 hk2 => hex k (by omega) (by omega)
    have hsets : ∀ k, (k = j ∨ ((j + 1 ≤ k) ∧ k < (j + 1) + n)) ↔ (j ≤ k ∧ k < j + (n + 1)) := by
      intro k
      omega
    cases hmt : intersect_ray_tri ray tri hit.t with
    | none =>
      obtain ⟨H, hrun, hdesc⟩ := ih (j + 1) hit hrange
      refine ⟨H, ?_, ?_⟩
      · simp only [leafScan, htri, hmt]
        exact hrun
      · have h0 : DescF b.tris.get? ray (fun k => k = j) hit hit :=
          DescF_none (fun k hk => by subst hk; exact irt_none_not_acc htri hmt)
        exact DescF_congr hsets (DescF_comp h0 hdesc)
    | some p =>
      obtain ⟨t, u, v⟩ := p
      obtain ⟨hraw, hlt⟩ := irt_some_iff.mp hmt
      obtain ⟨H, hrun, hdesc⟩ := ih (j + 1) ⟨(j : Int), t, u, v⟩ hrange
      refine ⟨H, ?_, ?_⟩
      · simp only [leafScan, htri, hmt, Bool.false_eq_true, if_false]
        exact hrun
      · have h0 : DescF b.tris.get? ray (fun k => k = j) hit ⟨(j : Int), t, u, v⟩ := by
          refine Or.inr ⟨j, tri, t, u, v, rfl, htri, hraw, hlt, rfl, ?_⟩
          rintro j' tri' t' u' v' rfl hf' hm'
          rw [htri, Option.some.injEq] at hf'
          subst hf'
          rw [hraw, Option.some.injEq, Prod.mk.injEq] at hm'
          exact le_of_eq hm'.1
        exact DescF_congr hsets (DescF_comp h0 hdesc)

theorem WFN_node {b : BvhQ} {i d : ℕ} (h : WFN b i d) :
    ∃ nd, b.nodes.get? i = some nd := by
  cases h with
  | leaf _ _ nd h1 _ _ => exact ⟨nd, h1⟩
  | inner _ _ nd c h1 _ _ _ _ _ _ => exact ⟨nd, h1⟩

theorem WFN_inner_inv {b : BvhQ} {i lvl : ℕ} {nd : BvhNode} (hw : WFN b i lvl)
    (hnd : b.nodes.get? i = some nd) (hlf : nd.is_leaf = false) :
    ∃ (c : ℕ) (d0 : ℕ), lvl = d0 + 1 ∧ nd.cf = (c : Int) ∧ WFN b c d0 ∧ WFN b (c + 1) d0 := by
  cases hw with
  | leaf _ _ nd' h1 h2 _ =>
    rw [hnd] at h1
    cases h1
    rw [hlf] at h2
    cases h2
  | inner _ d0 nd' c h1 _ h3 _ _ hl hr =>
    rw [hnd] at h1
    cases h1
    exact ⟨c, d0, rfl, h3, hl, hr⟩

theorem WFN_leaf_slots {b : BvhQ} {i lvl : ℕ} {nd : BvhNode} (hw : WFN b i lvl)
    (hnd : b.nodes.get? i = some nd) (hlf : nd.is_leaf = true) :
    ∀ j, nd.cf.toNat ≤ j → j < nd.cf.toNat + nd.na.toNat →
      ∃ tri, b.tris.get? j = some tri := by
  cases hw with
  | leaf _ _ nd' h1 _ h3 =>
    rw [hnd] at h1
    cases h1
    intro j hj1 hj2
    obtain ⟨tri, htri, _⟩ := h3 j hj1 hj2
    exact ⟨tri, htri⟩
  | inner _ _ nd' c h1 h2 _ _ _ _ _ =>
    rw [hnd] at h1
    cases h1
    rw [hlf] at h2
    cases h2

theorem under_leaf_iff {b : BvhQ} {c j : ℕ} {nd : BvhNode}
    (hnd : b.nodes.get? c = some nd) (hlf : nd.is_leaf = true) :
    Under b c j ↔ (nd.cf.toNat ≤ j ∧ j < nd.cf.toNat + nd.na.toNat) := by
  constructor
  · intro h
    cases h with
    | leaf _ _ nd' h1 _ h3 h4 =>
      rw [hnd] at h1
      cases h1
      exact ⟨h3, h4⟩
    | innerL _ _ nd' h1 h2 _ =>
      rw [hnd] at h1
      cases h1
      rw [hlf] at h2
      cases h2
    | innerR _ _ nd' h1 h2 _ =>
      rw [hnd] at h1
      cases h1
      rw [hlf] at h2
      cases h2
  · rintro ⟨h1, h2⟩
    exact Under.leaf c j nd hnd hlf h1 h2

theorem under_inner_iff {b : BvhQ} {c j : ℕ} {nd : BvhNode}
    (hnd : b.nodes.get? c = some nd) (hlf : nd.is_leaf = false) :
    Under b c j ↔ (Under b nd.cf.toNat j ∨ Under b (nd.cf.toNat + 1) j) := by
  constructor
  · intro h
    cases h with
    | leaf _ _ nd' h1 h2 _ _ =>
      rw [hnd] at h1
      cases h1
      rw [hlf] at h2
      cases h2
    | innerL _ _ nd' h1 _ h3 =>
      rw [hnd] at h1
      cases h1
      exact Or.inl h3
    | innerR _ _ nd' h1 _ h3 =>
      rw [hnd] at h1
      cases h1
      exact Or.inr h3
  · rintro (h | h)
    · exact Under.innerL c j nd hnd hlf h
    · exact Under.innerR c j nd hnd hlf h

/-- If the slab test of a well-formed node fails against threshold `τ`,
no slot under that node has an acceptable intersection below `τ`. -/
theorem prune_safe {b : BvhQ} {ray : RayQ} {i lvl : ℕ} {nd : BvhNode} {τ : ℚ}
    (hdx : ray.dir.x ≠ 0) (hdy : ray.dir.y ≠ 0) (hdz : ray.dir.z ≠ 0)
    (hw : WFN b i lvl) (hnd : b.nodes.get? i = some nd)
    (hfail : ¬ ((nd.intersect ⟨1 / ray.dir.x, 1 / ray.dir.y, 1 / ray.dir.z⟩
        (ray.org * ⟨1 / ray.dir.x, 1 / ray.dir.y, 1 / ray.dir.z⟩) ray.tmin τ
        (decide (0 < ray.dir.x)) (decide (0 < ray.dir.y)) (decide (0 < ray.dir.z))).1 ≤
      (nd.intersect ⟨1 / ray.dir.x, 1 / ray.dir.y, 1 / ray.dir.z⟩
        (ray.org * ⟨1 / ray.dir.x, 1 / ray.dir.y, 1 / ray.dir.z⟩) ray.tmin τ
        (decide (0 < ray.dir.x)) (decide (0 < ray.dir.y)) (decide (0 < ray.dir.z))).2)) :
    ∀ j, Under b i j → ¬ accF b.tris.get? ray j τ := by
  rintro j hu ⟨tri, t, u, v, hf, hm, hlt⟩
  obtain ⟨tri', nd', hnd', htri', hbox⟩ := under_tri hu lvl hw
  rw [hnd] at hnd'
  cases hnd'
  rw [hf, Option.some.injEq] at htri'
  subst htri'
  obtain ⟨hin, htmin⟩ := mtRaw_inBox hm hbox
  exact hfail (slab_pass hdx hdy hdz hin (le_of_lt htmin) (le_of_lt hlt))

/-- Both siblings of a child pair well-formed with depth bound `d`. -/
def PairWF (b : BvhQ) (c d : ℕ) : Prop := WFN b c d ∧ WFN b (c + 1) d

theorem PairWF_mono {b : BvhQ} {c d d' : ℕ} (h : PairWF b c d) (hd : d ≤ d') :
    PairWF b c d' := ⟨h.1.mono d' hd, h.2.mono d' hd⟩

/-- The traversal-stack invariant relative to the root-pair depth bound
`D`: the bottom entry is the `-1` sentinel, sitting at level `D+1`, and
each entry above it is a valid child-pair base index one level lower. -/
inductive StackOK (b : BvhQ) (D : ℕ) : List Int → ℕ → Prop where
  | base : StackOK b D [-1] (D + 1)
  | push (e : ℕ) (s : List Int) (lvl : ℕ) :
      PairWF b e lvl →
      StackOK b D s (lvl + 1) →
      StackOK b D ((e : Int) :: s) lvl

theorem StackOK_length {b : BvhQ} {D : ℕ} {s : List Int} {lvl : ℕ}
    (h : StackOK b D s lvl) : s.length + lvl = D + 2 := by
  induction h with
  | base => simp; omega
  | push e s lvl _ _ ih =>
    simp only [List.length_cons] at ih ⊢
    omega

/-- The slots hanging under a child pair. -/
def pairSlots (b : BvhQ) (c : ℕ) (j : ℕ) : Prop := Under b c j ∨ Under b (c + 1) j

/-- The slots hanging under any pair recorded on the stack
(the sentinel contributes nothing). -/
def stackSlots (b : BvhQ) (s : List Int) (j : ℕ) : Prop :=
  ∃ e ∈ s, 0 ≤ e ∧ pairSlots b e.toNat j

theorem stackSlots_cons {b : BvhQ} {e : Int} {s : List Int} {j : ℕ} :
    stackSlots b (e :: s) j ↔ (0 ≤ e ∧ pairSlots b e.toNat j) ∨ stackSlots b s j := by
  constructor
  · rintro ⟨x, hx, h1, h2⟩
    rcases List.mem_cons.mp hx with rfl | hx'
    · exact Or.inl ⟨h1, h2⟩
    · exact Or.inr ⟨x, hx', h1, h2⟩
  · rintro (⟨h1, h2⟩ | ⟨x, hx, h1, h2⟩)
    · exact ⟨e, List.mem_cons_self _ _, h1, h2⟩
    · exact ⟨x, List.mem_cons_of_mem _ hx, h1, h2⟩

theorem stackSlots_sentinel {b : BvhQ} {j : ℕ} : ¬ stackSlots b [-1] j := by
  rintro ⟨e, he, h1, _⟩
  simp at he
  subst he
  norm_num at h1

/-- Subtree size with explicit depth fuel. -/
def stSize (b : BvhQ) : ℕ → ℕ → ℕ
  | 0, _ => 1
  | dfuel + 1, i =>
    match b.nodes.get? i with
    | some nd =>
      if nd.is_leaf then 1
      else 1 + stSize b dfuel nd.cf.toNat + stSize b dfuel (nd.cf.toNat + 1)
    | none => 1

theorem stSize_pos (b : BvhQ) (df i : ℕ) : 1 ≤ stSize b df i := by
  cases df with
  | zero => exact le_refl _
  | succ n =>
    rw [stSize]
    cases b.nodes.get? i with
    | none => exact le_refl _
    | some nd =>
      by_cases h : nd.is_leaf = true <;> simp [h] <;> omega

theorem stSize_stable {b : BvhQ} {i d : ℕ} (h : WFN b i d) :
    ∀ d1 d2, d ≤ d1 → d ≤ d2 → stSize b d1 i = stSize b d2 i := by
  induction h with
  | leaf i d nd h1 h2 _ =>
    intro d1 d2 _ _
    have h1' : b.nodes[i]? = some nd := by rw [← List.get?_eq_getElem?]; exact h1
    have e : ∀ dd : ℕ, stSize b dd i = 1 := by
      intro dd
      cases dd with
      | zero => rfl
      | succ n => simp [stSize, h1', h2]
    rw [e d1, e d2]
  | inner i d nd c h1 h2 h3 _ _ _ _ ihl ihr =>
    intro d1 d2 hd1 hd2
    obtain ⟨n, rfl⟩ : ∃ n, d1 = n + 1 := ⟨d1 - 1, by omega⟩
    obtain ⟨m, rfl⟩ : ∃ m, d2 = m + 1 := ⟨d2 - 1, by omega⟩
    have hc : nd.cf.toNat = c := by rw [h3]; simp
    have h1' : b.nodes[i]? = some nd := by rw [← List.get?_eq_getElem?]; exact h1
    have e : ∀ dd : ℕ, stSize b (dd + 1) i = 1 + stSize b dd c + stSize b dd (c + 1) := by
      intro dd
      simp [stSize, h1', h2, hc]
    rw [e n, e m, ihl n m (by omega) (by omega), ihr n m (by omega) (by omega)]

/-- Size of a child pair (with depth fuel `D`). -/
def pairSz (b : BvhQ) (D : ℕ) (c : ℕ) : ℕ := stSize b D c + stSize b D (c + 1)

/-- Total size of the pairs recorded on the stack. -/
def stackSz (b : BvhQ) (D : ℕ) : List Int → ℕ
  | [] => 0
  | e :: s => (if 0 ≤ e then pairSz b D e.toNat else 0) + stackSz b D s

/-- An inner well-formed node's size decomposes through its children. -/
theorem stSize_inner {b : BvhQ} {i D : ℕ} {nd : BvhNode} {c d0 : ℕ}
    (hnd : b.nodes.get? i = some nd) (hlf : nd.is_leaf = false)
    (hcf : nd.cf = (c : Int)) (hwl : WFN b c d0) (hwr : WFN b (c + 1) d0)
    (hD : d0 + 1 ≤ D) :
    stSize b D i = 1 + pairSz b D c := by
  obtain ⟨n, rfl⟩ : ∃ n, D = n + 1 := ⟨D - 1, by omega⟩
  have hc : nd.cf.toNat = c := by rw [hcf]; simp
  have hnd' : b.nodes[i]? = some nd := by rw [← List.get?_eq_getElem?]; exact hnd
  have e : stSize b (n + 1) i = 1 + stSize b n c + stSize b n (c + 1) := by
    simp [stSize, hnd', hc, hlf]
  rw [e, pairSz, stSize_stable hwl n (n + 1) (by omega) (by omega),
    stSize_stable hwr n (n + 1) (by omega) (by omega)]
  omega

/-- The slab test of `Bvh::traverse` against a node, with the derived
quantities the loop precomputes from the ray. -/
def slabOf (ray : RayQ) (nd : BvhNode) (tmax : ℚ) : ℚ × ℚ :=
  nd.intersect ⟨1 / ray.dir.x, 1 / ray.dir.y, 1 / ray.dir.z⟩
    (ray.org * ⟨1 / ray.dir.x, 1 / ray.dir.y, 1 / ray.dir.z⟩) ray.tmin tmax
    (decide (0 < ray.dir.x)) (decide (0 < ray.dir.y)) (decide (0 < ray.dir.z))

theorem prune_safe' {b : BvhQ} {ray : RayQ} {i lvl : ℕ} {nd : BvhNode} {τ : ℚ}
    (hdx : ray.dir.x ≠ 0) (hdy : ray.dir.y ≠ 0) (hdz : ray.dir.z ≠ 0)
    (hw : WFN b i lvl) (hnd : b.nodes.get? i = some nd)
    (hfail : ¬ ((slabOf ray nd τ).1 ≤ (slabOf ray nd τ).2)) :
    ∀ j, Under b i j → ¬ accF b.tris.get? ray j τ := by
  unfold slabOf at hfail
  exact prune_safe hdx hdy hdz hw hnd hfail

/-- Processing one child in the traversal loop: the result carries the
post-child hit, never returns early in closest-hit mode, and either the
child is fully accounted for (its candidates folded into the hit) or it
is an inner node deferred through `c0 = child`. -/
theorem processChild {b : BvhQ} {ray : RayQ}
    (hdx : ray.dir.x ≠ 0) (hdy : ray.dir.y ≠ 0) (hdz : ray.dir.z ≠ 0)
    {i lvl : ℕ} {nd : BvhNode} {τ : ℚ}
    (hw : WFN b i lvl) (hnd : b.nodes.get? i = some nd)
    (h' : HitQ) (hle : h'.t ≤ τ) :
    ∃ (H : HitQ) (c0 : Int),
      (if (slabOf ray nd τ).1 ≤ (slabOf ray nd τ).2 then
        if nd.is_leaf then
          (leafScan b ray false nd.cf.toNat nd.na.toNat h').map (fun p => (p.1, p.2, (-1 : Int)))
        else some (h', false, nd.cf)
      else some (h', false, (-1 : Int))) = some (H, false, c0) ∧
      ((c0 < 0 ∧ DescF b.tris.get? ray (Under b i) h' H) ∨
       (0 ≤ c0 ∧ H = h' ∧ nd.is_leaf = false ∧ nd.cf = c0)) := by
  by_cases hslab : (slabOf ray nd τ).1 ≤ (slabOf ray nd τ).2
  · by_cases hlf : nd.is_leaf = true
    · obtain ⟨H, hrun, hdesc⟩ := leafScan_desc b ray nd.na.toNat nd.cf.toNat h'
        (fun k hk1 hk2 => WFN_leaf_slots hw hnd hlf k hk1 hk2)
      refine ⟨H, -1, ?_, Or.inl ⟨by norm_num, ?_⟩⟩
      · rw [if_pos hslab, if_pos hlf, hrun]
        rfl
      · exact DescF_congr (fun j => ((under_leaf_iff hnd hlf).symm : _ ↔ _)) hdesc
    · have hlf' : nd.is_leaf = false := by
        cases h : nd.is_leaf
        · rfl
        · exact absurd h hlf
      obtain ⟨c, d0, _, hcf, _, _⟩ := WFN_inner_inv hw hnd hlf'
      refine ⟨h', nd.cf, ?_, Or.inr ⟨by rw [hcf]; exact Int.ofNat_nonneg c, rfl, hlf', rfl⟩⟩
      rw [if_pos hslab, if_neg hlf]
  · refine ⟨h', -1, ?_, Or.inl ⟨by norm_num, ?_⟩⟩
    · rw [if_neg hslab]
    · refine DescF_none (fun j hu hacc => ?_)
      exact prune_safe' hdx hdy hdz hw hnd hslab j hu (accF_mono hle hacc)


theorem travGo_succ (b : BvhQ) (ray : RayQ) (a : Bool) (iD oD : Vec3 ℚ)
    (dx dy dz : Bool) (f : ℕ) (top : Int) (stack : List Int) (hit : HitQ) :
    travGo b ray a iD oD dx dy dz (f + 1) top stack hit =
    match travStep b ray a iD oD dx dy dz top stack hit with
    | none => none
    | some (Sum.inl r) => some r
    | some (Sum.inr (t, s, h)) => travGo b ray a iD oD dx dy dz f t s h := rfl


theorem StackOK_pos {b : BvhQ} {D : ℕ} {s : List Int} {m : ℕ}
    (h : StackOK b D s m) : 1 ≤ s.length := by
  cases h <;> simp

theorem stackSz_cons_nat (b : BvhQ) (D : ℕ) (e : ℕ) (s : List Int) :
    stackSz b D ((e : Int) :: s) = pairSz b D e + stackSz b D s := by
  rw [show stackSz b D ((e : Int) :: s)
    = (if 0 ≤ (e : Int) then pairSz b D ((e : Int)).toNat else 0) + stackSz b D s
    from rfl]
  rw [if_pos (Int.ofNat_nonneg e), Int.toNat_natCast]

set_option maxHeartbeats 1600000 in
/-- Correctness of the closest-hit traversal loop: with sufficient fuel,
starting from a well-formed child pair and a well-formed stack, the loop
terminates normally and its result folds exactly the candidates under
the current pair and all stacked pairs over the incoming hit. -/
theorem travGo_desc (b : BvhQ) (ray : RayQ) (D : ℕ)
    (hdx : ray.dir.x ≠ 0) (hdy : ray.dir.y ≠ 0) (hdz : ray.dir.z ≠ 0)
    (hD : D ≤ 62) :
    ∀ (fuel : ℕ) (c lvl m : ℕ) (stack : List Int) (hit : HitQ),
      PairWF b c lvl → lvl ≤ D → lvl < m →
      StackOK b D stack m →
      pairSz b D c + stackSz b D stack ≤ fuel →
      ∃ H, travGo b ray false
          ⟨1 / ray.dir.x, 1 / ray.dir.y, 1 / ray.dir.z⟩
          (ray.org * ⟨1 / ray.dir.x, 1 / ray.dir.y, 1 / ray.dir.z⟩)
          (decide (0 < ray.dir.x)) (decide (0 < ray.dir.y)) (decide (0 < ray.dir.z))
          fuel (c : Int) stack hit = some (H, false) ∧
        DescF b.tris.get? ray (fun j => pairSlots b c j ∨ stackSlots b stack j) hit H := by
  intro fuel
  induction fuel using Nat.strong_induction_on with
  | _ fuel IH =>
  intro c lvl m stack hit hpw hlvl hm hstk hfuel
  obtain ⟨f, rfl⟩ : ∃ f, fuel = f + 1 := by
    have h1 := stSize_pos b D c
    have h2 := stSize_pos b D (c + 1)
    cases fuel with
    | zero =>
      exfalso
      rw [pairSz] at hfuel
      omega
    | succ f => exact ⟨f, rfl⟩
  obtain ⟨ndl, hndl⟩ := WFN_node hpw.1
  obtain ⟨ndr, hndr⟩ := WFN_node hpw.2
  have hcnn : ¬ ((c : Int) < 0) := not_lt.mpr (Int.ofNat_nonneg c)
  have htn : ((c : Int)).toNat = c := Int.toNat_natCast c
  have hndl' : b.nodes.get? ((c : Int)).toNat = some ndl := by rw [htn]; exact hndl
  have hndr' : b.nodes.get? (((c : Int)).toNat + 1) = some ndr := by rw [htn]; exact hndr
  obtain ⟨H1, c0, heq1, hinfo1⟩ := processChild hdx hdy hdz hpw.1 hndl hit (le_refl hit.t)
  have ht1 : H1.t ≤ hit.t := by
    rcases hinfo1 with ⟨_, hdesc⟩ | ⟨_, rfl, _, _⟩
    · exact DescF_t_le hdesc
    · exact le_refl _
  obtain ⟨H2, c1, heq2, hinfo2⟩ := processChild hdx hdy hdz hpw.2 hndr H1 ht1
  have hstep : travStep b ray false
      ⟨1 / ray.dir.x, 1 / ray.dir.y, 1 / ray.dir.z⟩
      (ray.org * ⟨1 / ray.dir.x, 1 / ray.dir.y, 1 / ray.dir.z⟩)
      (decide (0 < ray.dir.x)) (decide (0 < ray.dir.y)) (decide (0 < ray.dir.z))
      (c : Int) stack hit =
      (if 0 ≤ c0 ∧ 0 ≤ c1 then
        if 64 ≤ stack.length then none
        else some (Sum.inr
          ((if (slabOf ray ndl hit.t).1 < (slabOf ray ndr hit.t).1 then c0 else c1),
           ((if (slabOf ray ndl hit.t).1 < (slabOf ray ndr hit.t).1 then c1 else c0) :: stack),
           H2))
      else if 0 ≤ c1 then some (Sum.inr (c1, stack, H2))
      else if 0 ≤ c0 then some (Sum.inr (c0, stack, H2))
      else
        match stack with
        | [] => none
        | t :: rest =>
          if t < 0 then some (Sum.inl (H2, false))
          else some (Sum.inr (t, rest, H2))) := by
    simp only [travStep, if_neg hcnn, hndl', hndr']
    rw [show (ndl.intersect ⟨1 / ray.dir.x, 1 / ray.dir.y, 1 / ray.dir.z⟩
      (ray.org * ⟨1 / ray.dir.x, 1 / ray.dir.y, 1 / ray.dir.z⟩) ray.tmin hit.t
      (decide (0 < ray.dir.x)) (decide (0 < ray.dir.y)) (decide (0 < ray.dir.z)))
        = slabOf ray ndl hit.t from rfl]
    rw [show (ndr.intersect ⟨1 / ray.dir.x, 1 / ray.dir.y, 1 / ray.dir.z⟩
      (ray.org * ⟨1 / ray.dir.x, 1 / ray.dir.y, 1 / ray.dir.z⟩) ray.tmin hit.t
      (decide (0 < ray.dir.x)) (decide (0 < ray.dir.y)) (decide (0 < ray.dir.z)))
        = slabOf ray ndr hit.t from rfl]
    rw [heq1]
    simp only [Bool.false_eq_true, if_false]
    rw [heq2]
    simp only [Bool.false_eq_true, if_false]
  rw [travGo_succ, hstep]
  have epz : pairSz b D c = stSize b D c + stSize b D (c + 1) := rfl
  have hp1 := stSize_pos b D c
  have hp2 := stSize_pos b D (c + 1)
  rcases hinfo1 with ⟨hc0neg, hdesc1⟩ | ⟨hc0pos, hH1e, hlfl, hcfl⟩
  · -- left child fully folded into H1 (c0 < 0)
    rcases hinfo2 with ⟨hc1neg, hdesc2⟩ | ⟨hc1pos, hH2e, hlfr, hcfr⟩
    · -- both folded: pop from the stack
      have hcomb := DescF_comp hdesc1 hdesc2
      rw [if_neg (by rintro ⟨h0, _⟩; exact absurd h0 (not_le.mpr hc0neg)),
          if_neg (not_le.mpr hc1neg), if_neg (not_le.mpr hc0neg)]
      cases hstk with
      | base =>
        refine ⟨H2, ?_, ?_⟩
        · rw [show (match ([-1] : List Int) with
            | [] => (none : Option (Sum (HitQ × Bool) (Int × List Int × HitQ)))
            | t :: rest =>
              if t < 0 then some (Sum.inl (H2, false))
              else some (Sum.inr (t, rest, H2)))
            = if (-1 : Int) < 0 then some (Sum.inl (H2, false))
              else some (Sum.inr (-1, ([] : List Int), H2)) from rfl]
          rw [if_pos (by norm_num : (-1 : Int) < 0)]
        · refine DescF_congr (fun j => ?_) hcomb
          constructor
          · exact fun h => Or.inl h
          · rintro (h | h)
            · exact h
            · exact absurd h stackSlots_sentinel
      | push e rest m2 hpwr hrest =>
        have hen : ¬ ((e : Int) < 0) := not_lt.mpr (Int.ofNat_nonneg e)
        rw [show (match ((e : Int) :: rest : List Int) with
            | [] => (none : Option (Sum (HitQ × Bool) (Int × List Int × HitQ)))
            | t :: rest =>
              if t < 0 then some (Sum.inl (H2, false))
              else some (Sum.inr (t, rest, H2)))
            = if (e : Int) < 0 then some (Sum.inl (H2, false))
              else some (Sum.inr ((e : Int), rest, H2)) from rfl]
        rw [if_neg hen]
        have hrlen := StackOK_length hrest
        have hrpos := StackOK_pos hrest
        have hstsz := stackSz_cons_nat b D e rest
        obtain ⟨H, hrun, hdesc⟩ := IH f (by omega) e m (m + 1) rest H2
          hpwr (by omega) (by omega) hrest (by omega)
        refine ⟨H, hrun, ?_⟩
        have hcomp := DescF_comp hcomb hdesc
        refine DescF_congr (fun j => ?_) hcomp
        rw [stackSlots_cons]
        constructor
        · rintro ((h | h) | (h | h))
          · exact Or.inl (Or.inl h)
          · exact Or.inl (Or.inr h)
          · exact Or.inr (Or.inl ⟨Int.ofNat_nonneg e, by rw [Int.toNat_natCast]; exact h⟩)
          · exact Or.inr (Or.inr h)
        · rintro ((h | h) | (⟨_, h⟩ | h))
          · exact Or.inl (Or.inl h)
          · exact Or.inl (Or.inr h)
          · exact Or.inr (Or.inl (by rw [Int.toNat_natCast] at h; exact h))
          · exact Or.inr (Or.inr h)
    · -- left folded, right deferred: continue into the right child
      subst hH2e
      obtain ⟨cr, d0r, hlvlr, hcfr', hwrl, hwrr⟩ := WFN_inner_inv hpw.2 hndr hlfr
      have hc1l : c1 = (cr : Int) := by rw [← hcfr]; exact hcfr'
      subst hc1l
      rw [if_neg (by rintro ⟨h0, _⟩; exact absurd h0 (not_le.mpr hc0neg)),
          if_pos hc1pos]
      have hszR : stSize b D (c + 1) = 1 + pairSz b D cr :=
        stSize_inner hndr hlfr hcfr' hwrl hwrr (by omega)
      obtain ⟨H, hrun, hdesc⟩ := IH f (by omega) cr d0r m stack H2
        ⟨hwrl, hwrr⟩ (by omega) (by omega) hstk (by omega)
      refine ⟨H, hrun, ?_⟩
      have hcomp := DescF_comp hdesc1 hdesc
      refine DescF_congr (fun j => ?_) hcomp
      have hiff := under_inner_iff hndr hlfr (j := j)
      rw [hcfr', Int.toNat_natCast] at hiff
      constructor
      · rintro (h | ((h | h) | h))
        · exact Or.inl (Or.inl h)
        · exact Or.inl (Or.inr (hiff.mpr (Or.inl h)))
        · exact Or.inl (Or.inr (hiff.mpr (Or.inr h)))
        · exact Or.inr h
      · rintro ((h | h) | h)
        · exact Or.inl h
        · rcases hiff.mp h with h' | h'
          · exact Or.inr (Or.inl (Or.inl h'))
          · exact Or.inr (Or.inl (Or.inr h'))
        · exact Or.inr (Or.inr h)
  · -- left child deferred
    subst hH1e
    obtain ⟨cl, d0l, hlvll, hcfl', hwll, hwlr⟩ := WFN_inner_inv hpw.1 hndl hlfl
    have hc0l : c0 = (cl : Int) := by rw [← hcfl]; exact hcfl'
    subst hc0l
    have hszL : stSize b D c = 1 + pairSz b D cl :=
      stSize_inner hndl hlfl hcfl' hwll hwlr (by omega)
    rcases hinfo2 with ⟨hc1neg, hdesc2⟩ | ⟨hc1pos, hH2e, hlfr, hcfr⟩
    · -- right folded: continue into the left child
      rw [if_neg (by rintro ⟨_, h1⟩; exact absurd h1 (not_le.mpr hc1neg)),
          if_neg (not_le.mpr hc1neg), if_pos hc0pos]
      obtain ⟨H, hrun, hdesc⟩ := IH f (by omega) cl d0l m stack H2
        ⟨hwll, hwlr⟩ (by omega) (by omega) hstk (by omega)
      refine ⟨H, hrun, ?_⟩
      have hcomp := DescF_comp hdesc2 hdesc
      refine DescF_congr (fun j => ?_) hcomp
      have hiff := under_inner_iff hndl hlfl (j := j)
      rw [hcfl', Int.toNat_natCast] at hiff
      constructor
      · rintro (h | ((h | h) | h))
        · exact Or.inl (Or.inr h)
        · exact Or.inl (Or.inl (hiff.mpr (Or.inl h)))
        · exact Or.inl (Or.inl (hiff.mpr (Or.inr h)))
        · exact Or.inr h
      · rintro ((h | h) | h)
        · rcases hiff.mp h with h' | h'
          · exact Or.inr (Or.inl (Or.inl h'))
          · exact Or.inr (Or.inl (Or.inr h'))
        · exact Or.inl h
        · exact Or.inr (Or.inr h)
    · -- both deferred: push the farther child pair, continue into the nearer
      subst hH2e
      obtain ⟨cr, d0r, hlvlr, hcfr', hwrl, hwrr⟩ := WFN_inner_inv hpw.2 hndr hlfr
      have hc1l : c1 = (cr : Int) := by rw [← hcfr]; exact hcfr'
      subst hc1l
      have hd0e : d0r = d0l := by omega
      subst hd0e
      have hszR : stSize b D (c + 1) = 1 + pairSz b D cr :=
        stSize_inner hndr hlfr hcfr' hwrl hwrr (by omega)
      have hlen := StackOK_length hstk
      obtain ⟨m', rfl⟩ : ∃ m', m = m' + 1 := ⟨m - 1, by omega⟩
      rw [if_pos ⟨hc0pos, hc1pos⟩, if_neg (by omega : ¬ (64 ≤ stack.length))]
      by_cases hcmp : (slabOf ray ndl H2.t).1 < (slabOf ray ndr H2.t).1
      · rw [if_pos hcmp, if_pos hcmp]
        have hstk' : StackOK b D ((cr : Int) :: stack) m' :=
          StackOK.push cr stack m' (PairWF_mono ⟨hwrl, hwrr⟩ (by omega)) hstk
        have hstsz := stackSz_cons_nat b D cr stack
        obtain ⟨H, hrun, hdesc⟩ := IH f (by omega) cl d0r m' ((cr : Int) :: stack) H2
          ⟨hwll, hwlr⟩ (by omega) (by omega) hstk' (by omega)
        refine ⟨H, hrun, ?_⟩
        refine DescF_congr (fun j => ?_) hdesc
        have hiffl := under_inner_iff hndl hlfl (j := j)
        rw [hcfl', Int.toNat_natCast] at hiffl
        have hiffr := under_inner_iff hndr hlfr (j := j)
        rw [hcfr', Int.toNat_natCast] at hiffr
        rw [stackSlots_cons]
        constructor
        · rintro ((h | h) | (⟨_, h⟩ | h))
          · exact Or.inl (Or.inl (hiffl.mpr (Or.inl h)))
          · exact Or.inl (Or.inl (hiffl.mpr (Or.inr h)))
          · rw [Int.toNat_natCast] at h
            rcases h with h | h
            · exact Or.inl (Or.inr (hiffr.mpr (Or.inl h)))
            · exact Or.inl (Or.inr (hiffr.mpr (Or.inr h)))
          · exact Or.inr h
        · rintro ((h | h) | h)
          · rcases hiffl.mp h with h' | h'
            · exact Or.inl (Or.inl h')
            · exact Or.inl (Or.inr h')
          · rcases hiffr.mp h with h' | h'
            · exact Or.inr (Or.inl ⟨Int.ofNat_nonneg cr,
                by rw [Int.toNat_natCast]; exact Or.inl h'⟩)
            · exact Or.inr (Or.inl ⟨Int.ofNat_nonneg cr,
                by rw [Int.toNat_natCast]; exact Or.inr h'⟩)
          · exact Or.inr (Or.inr h)
      · rw [if_neg hcmp, if_neg hcmp]
        have hstk' : StackOK b D ((cl : Int) :: stack) m' :=
          StackOK.push cl stack m' (PairWF_mono ⟨hwll, hwlr⟩ (by omega)) hstk
        have hstsz := stackSz_cons_nat b D cl stack
        obtain ⟨H, hrun, hdesc⟩ := IH f (by omega) cr d0r m' ((cl : Int) :: stack) H2
          ⟨hwrl, hwrr⟩ (by omega) (by omega) hstk' (by omega)
        refine ⟨H, hrun, ?_⟩
        refine DescF_congr (fun j => ?_) hdesc
        have hiffl := under_inner_iff hndl hlfl (j := j)
        rw [hcfl', Int.toNat_natCast] at hiffl
        have hiffr := under_inner_iff hndr hlfr (j := j)
        rw [hcfr', Int.toNat_natCast] at hiffr
        rw [stackSlots_cons]
        constructor
        · rintro ((h | h) | (⟨_, h⟩ | h))
          · exact Or.inl (Or.inr (hiffr.mpr (Or.inl h)))
          · exact Or.inl (Or.inr (hiffr.mpr (Or.inr h)))
          · rw [Int.toNat_natCast] at h
            rcases h with h | h
            · exact Or.inl (Or.inl (hiffl.mpr (Or.inl h)))
            · exact Or.inl (Or.inl (hiffl.mpr (Or.inr h)))
          · exact Or.inr h
        · rintro ((h | h) | h)
          · rcases hiffl.mp h with h' | h'
            · exact Or.inr (Or.inl ⟨Int.ofNat_nonneg cl,
                by rw [Int.toNat_natCast]; exact Or.inl h'⟩)
            · exact Or.inr (Or.inl ⟨Int.ofNat_nonneg cl,
                by rw [Int.toNat_natCast]; exact Or.inr h'⟩)
          · rcases hiffr.mp h with h' | h'
            · exact Or.inl (Or.inl h')
            · exact Or.inl (Or.inr h')
          · exact Or.inr (Or.inr h)

/-- Folding brute-force steps over the first `n` source triangles yields
a hit described by the candidate set `{j | j < n}`. -/
theorem bruteFold_desc (ray : RayQ) (src : List TriQ) :
    ∀ (n : ℕ) (h : HitQ),
      DescF src.get? ray (fun j => j < n) h
        ((List.range n).foldl (fun h i => bruteForceStep ray src i h) h) := by
  intro n
  induction n with
  | zero =>
    intro h
    exact DescF_none (fun j hj => absurd hj (by omega))
  | succ n ih =>
    intro h
    rw [List.range_succ, List.foldl_append, List.foldl_cons, List.foldl_nil]
    have hd1 := ih h
    have hstep : DescF src.get? ray (fun j => j = n)
        ((List.range n).foldl (fun h i => bruteForceStep ray src i h) h)
        (bruteForceStep ray src n
          ((List.range n).foldl (fun h i => bruteForceStep ray src i h) h)) := by
      generalize (List.range n).foldl (fun h i => bruteForceStep ray src i h) h = h1
      cases hg : src.get? n with
      | none =>
        have e : bruteForceStep ray src n h1 = h1 := by
          simp only [bruteForceStep, hg]
        rw [e]
        refine DescF_none (fun j hj => ?_)
        subst hj
        rintro ⟨tri, t, u, v, hf, _, _⟩
        rw [hg] at hf
        cases hf
      | some tri =>
        cases hmt : intersect_ray_tri ray tri h1.t with
        | none =>
          have e : bruteForceStep ray src n h1 = h1 := by
            simp only [bruteForceStep, hg, hmt]
          rw [e]
          refine DescF_none (fun j hj => ?_)
          subst hj
          rintro ⟨tri', t, u, v, hf, hm, hlt⟩
          rw [hg, Option.some.injEq] at hf
          subst hf
          rw [(irt_some_iff).mpr ⟨hm, hlt⟩] at hmt
          cases hmt
        | some p =>
          obtain ⟨t, u, v⟩ := p
          have e : bruteForceStep ray src n h1 = ⟨(n : Int), t, u, v⟩ := by
            simp only [bruteForceStep, hg, hmt]
          rw [e]
          obtain ⟨hraw, hlt⟩ := irt_some_iff.mp hmt
          refine Or.inr ⟨n, tri, t, u, v, rfl, hg, hraw, hlt, rfl, ?_⟩
          rintro j' tri' t' u' v' rfl hf' hm'
          rw [hg, Option.some.injEq] at hf'
          subst hf'
          rw [hraw, Option.some.injEq, Prod.mk.injEq] at hm'
          exact le_of_eq hm'.1
    exact DescF_congr (fun j => by omega) (DescF_comp hd1 hstep)

/-- The brute-force reference is described by the full candidate set. -/
theorem bruteForce_desc (src : List TriQ) (ray : RayQ) :
    DescF src.get? ray (fun j => j < src.length) ⟨-1, ray.tmax, 0, 0⟩
      (bruteForce src ray) :=
  bruteFold_desc ray src src.length ⟨-1, ray.tmax, 0, 0⟩

set_option maxHeartbeats 1600000 in
/-- C1 (amended): for every ray with nonzero direction components and
every BVH whose root is an inner node with a well-formed child pair of
depth at most 62, whose leaf slots hold copies of source triangles
linked through `prim_ids`, whose source triangles are all reachable, and
whose ray has no exact `t`-ties between distinct source triangles,
closest-hit traversal with sufficient fuel returns exactly the
brute-force closest hit over all source triangles (same source triangle
id, same `t`, `u`, `v`).  The original unconditional claim is refuted by
`c1_counterexample` (a one-triangle BVH whose root remains a leaf:
`Bvh::traverse` then reads `nodes[1]` out of bounds). -/
theorem c1_traverse_matches_bruteforce (b : BvhQ) (src : List TriQ)
    (ray : RayQ) (D : ℕ) (root : BvhNode) (c : ℕ) (fuel : ℕ)
    (hdx : ray.dir.x ≠ 0) (hdy : ray.dir.y ≠ 0) (hdz : ray.dir.z ≠ 0)
    (hD : D ≤ 62)
    (hroot : b.nodes.get? 0 = some root)
    (hrcf : root.cf = (c : Int))
    (hpw : PairWF b c D)
    (hlink : ∀ j tri, b.tris.get? j = some tri →
      ∃ pid, b.prim_ids.get? j = some pid ∧ src.get? pid = some tri)
    (hcover : ∀ i tri, src.get? i = some tri →
      ∃ j, pairSlots b c j ∧ b.tris.get? j = some tri)
    (hties : ∀ i1 i2 tri1 tri2 t1 u1 v1 t2 u2 v2, i1 ≠ i2 →
      src.get? i1 = some tri1 → src.get? i2 = some tri2 →
      mtRaw ray tri1 = some (t1, u1, v1) → mtRaw ray tri2 = some (t2, u2, v2) →
      t1 ≠ t2)
    (hfuel : pairSz b D c ≤ fuel) :
    BvhQ.traverse false b ray fuel = some (bruteForce src ray) := by
  have hsz0 : stackSz b D [-1] = 0 := by
    rw [show stackSz b D [-1]
      = (if 0 ≤ (-1 : Int) then pairSz b D ((-1 : Int)).toNat else 0)
        + stackSz b D [] from rfl]
    norm_num [stackSz]
  obtain ⟨H, hrun, hdesc0⟩ := travGo_desc b ray D hdx hdy hdz hD fuel c D (D + 1)
    [-1] ⟨-1, ray.tmax, 0, 0⟩ hpw (le_refl D) (by omega) StackOK.base (by omega)
  have hdesc : DescF b.tris.get? ray (pairSlots b c) ⟨-1, ray.tmax, 0, 0⟩ H := by
    refine DescF_congr (fun j => ?_) hdesc0
    constructor
    · rintro (h | h)
      · exact h
      · exact absurd h stackSlots_sentinel
    · exact fun h => Or.inl h
  have hbd := bruteForce_desc src ray
  have htmax : (⟨-1, ray.tmax, 0, 0⟩ : HitQ).t = ray.tmax := rfl
  simp only [BvhQ.traverse, hroot]
  rw [hrcf, hrun]
  simp only [Bool.false_eq_true, if_false]
  rcases hdesc with ⟨rfl, hno⟩ | ⟨j, tri, t, u, v, hSj, hfj, hmj, hltj, hHe, hminj⟩
  · -- no candidate under the tree beats tmax: brute force misses too
    rw [if_neg (by norm_num : ¬ (0 ≤ (⟨-1, ray.tmax, 0, 0⟩ : HitQ).tri))]
    rcases hbd with ⟨hbe, _⟩ | ⟨i, tri', t', u', v', _, hfi, hmi, hlti, _, _⟩
    · rw [hbe]
    · exfalso
      obtain ⟨j2, hSj2, hfj2⟩ := hcover i tri' hfi
      exact hno j2 hSj2 ⟨tri', t', u', v', hfj2, hmi, by rw [htmax] at hlti ⊢; exact hlti⟩
  · -- a winner slot: remap through prim_ids and match the brute winner
    subst hHe
    obtain ⟨pid, hpid, hsrcpid⟩ := hlink j tri hfj
    have hpidlen : pid < src.length := by
      rcases List.get?_eq_some.mp hsrcpid with ⟨hlt, _⟩
      exact hlt
    rcases hbd with ⟨_, hbno⟩ | ⟨i, tri', t', u', v', hilen, hfi, hmi, hlti, hbHe, hminb⟩
    · exfalso
      exact hbno pid hpidlen ⟨tri, t, u, v, hsrcpid, hmj, hltj⟩
    · have htle : t ≤ t' := by
        obtain ⟨j2, hSj2, hfj2⟩ := hcover i tri' hfi
        exact hminj j2 tri' t' u' v' hSj2 hfj2 hmi
      have htge : t' ≤ t := hminb pid tri t u v hpidlen hsrcpid hmj
      have hteq : t = t' := le_antisymm htle htge
      have hpideq : pid = i := by
        by_contra hne
        exact hties pid i tri tri' t u v t' u' v' hne hsrcpid hfi hmj hmi hteq
      subst hpideq
      rw [hfi, Option.some.injEq] at hsrcpid
      subst hsrcpid
      rw [hmj, Option.some.injEq, Prod.mk.injEq] at hmi
      obtain ⟨hte, hmi2⟩ := hmi
      rw [Prod.mk.injEq] at hmi2
      obtain ⟨hue, hve⟩ := hmi2
      rw [if_pos (by positivity : (0 : Int) ≤ ((⟨(j : Int), t, u, v⟩ : HitQ)).tri)]
      rw [show ((⟨(j : Int), t, u, v⟩ : HitQ)).tri.toNat = j by simp]
      rw [hpid, hbHe, hte, hue, hve]

/-- The one-triangle scene: `Bvh::build` keeps the root a leaf (its
`build` returns immediately when `num_prims <= 1`), so the node array
has a single node. -/
def c1tri : TriQ := ⟨⟨0, 0, 0⟩, ⟨1, 0, 0⟩, ⟨0, 1, 0⟩⟩

def c1node : BvhNode := ⟨⟨0, 0, 0⟩, 0, ⟨1, 1, 0⟩, 1⟩

def c1bvh : BvhQ := ⟨[c1node], [0], [c1tri]⟩

def c1ray : RayQ := ⟨⟨1/4, 1/4, -1⟩, ⟨0, 0, 1⟩, 0, 10⟩

/-- C1 is refuted as stated: on the BVH built from a single triangle the
root stays a leaf, and `Bvh::traverse` — which unconditionally starts at
`nodes[0].child` and intersects BOTH `nodes[top]` and `nodes[top+1]` —
reads past the one-element node array (undefined behavior, modelled as
`none`), while brute force over the same triangle set reports the valid
closest hit `t = 1` inside `[tmin, tmax] = [0, 10]`. -/
theorem c1_counterexample :
    (∀ fuel, BvhQ.traverse false c1bvh c1ray fuel = none) ∧
    c1node.is_leaf = true ∧
    bruteForce [c1tri] c1ray = ⟨0, 1, 1/4, 1/4⟩ := by
  refine ⟨?_, rfl, ?_⟩
  · intro fuel
    cases fuel with
    | zero => rfl
    | succ f =>
      simp only [BvhQ.traverse, travGo, travStep]
      norm_num [c1bvh, c1node]
  · norm_num [bruteForce, bruteForceStep, intersect_ray_tri, mtRaw, c1tri, c1ray,
      Vec3.dot, Vec3.cross, Vec3.sub_def, List.range_succ]

/-- Two-triangle scene for exercising the amended C1 theorem: a root
with two leaf children, one triangle each. -/
def w1T0 : TriQ := ⟨⟨0, 0, 0⟩, ⟨1, 0, 0⟩, ⟨0, 1, 0⟩⟩

def w1T1 : TriQ := ⟨⟨0, 0, 2⟩, ⟨1, 0, 2⟩, ⟨0, 1, 2⟩⟩

def w1root : BvhNode := ⟨⟨0, 0, 0⟩, 1, ⟨1, 1, 2⟩, 0⟩

def w1left : BvhNode := ⟨⟨0, 0, 0⟩, 0, ⟨1, 1, 0⟩, 1⟩

def w1right : BvhNode := ⟨⟨0, 0, 2⟩, 1, ⟨1, 1, 2⟩, 1⟩

def w1bvh : BvhQ := ⟨[w1root, w1left, w1right], [0, 1], [w1T0, w1T1]⟩

def w1ray : RayQ := ⟨⟨0, 0, -1⟩, ⟨1/8, 1/8, 1⟩, 0, 10⟩

theorem c1_traverse_matches_bruteforce_witness :
    BvhQ.traverse false w1bvh w1ray 2 = some (bruteForce [w1T0, w1T1] w1ray) := by
  have hm0 : mtRaw w1ray w1T0 = some (1, 1/8, 1/8) := by
    norm_num [mtRaw, w1ray, w1T0, Vec3.dot, Vec3.cross, Vec3.sub_def]
  have hm1 : mtRaw w1ray w1T1 = some (3, 3/8, 3/8) := by
    norm_num [mtRaw, w1ray, w1T1, Vec3.dot, Vec3.cross, Vec3.sub_def]
  have hwl : WFN w1bvh 1 0 := by
    refine WFN.leaf 1 0 w1left rfl rfl ?_
    intro j hj1 hj2
    have e1 : w1left.cf.toNat = 0 := rfl
    have e2 : w1left.na.toNat = 1 := rfl
    rw [e1, e2] at hj2
    have hj : j = 0 := by omega
    subst hj
    exact ⟨w1T0, rfl, by norm_num [triInBox, inBox, w1T0, w1left]⟩
  have hwr : WFN w1bvh 2 0 := by
    refine WFN.leaf 2 0 w1right rfl rfl ?_
    intro j hj1 hj2
    have e1 : w1right.cf.toNat = 1 := rfl
    have e2 : w1right.na.toNat = 1 := rfl
    rw [e1] at hj1
    rw [e1, e2] at hj2
    have hj : j = 1 := by omega
    subst hj
    exact ⟨w1T1, rfl, by norm_num [triInBox, inBox, w1T1, w1right]⟩
  have hu0 : Under w1bvh 1 0 := by
    refine Under.leaf 1 0 w1left rfl rfl ?_ ?_
    · exact Nat.le_refl 0
    · rw [show w1left.cf.toNat = 0 from rfl, show w1left.na.toNat = 1 from rfl]
      omega
  have hu1 : Under w1bvh 2 1 := by
    refine Under.leaf 2 1 w1right rfl rfl ?_ ?_
    · rw [show w1right.cf.toNat = 1 from rfl]
    · rw [show w1right.cf.toNat = 1 from rfl, show w1right.na.toNat = 1 from rfl]
      omega
  refine c1_traverse_matches_bruteforce w1bvh [w1T0, w1T1] w1ray 1 w1root 1 2
    (by norm_num [w1ray]) (by norm_num [w1ray]) (by norm_num [w1ray])
    (by norm_num) rfl rfl
    ⟨hwl.mono 1 (by omega), hwr.mono 1 (by omega)⟩
    ?_ ?_ ?_ ?_
  · intro j tri hj
    rcases j with _ | (_ | j)
    · rw [show w1bvh.tris.get? 0 = some w1T0 from rfl, Option.some.injEq] at hj
      subst hj
      exact ⟨0, rfl, rfl⟩
    · rw [show w1bvh.tris.get? 1 = some w1T1 from rfl, Option.some.injEq] at hj
      subst hj
      exact ⟨1, rfl, rfl⟩
    · rw [show w1bvh.tris.get? (j + 1 + 1) = none from rfl] at hj
      cases hj
  · intro i tri hi
    rcases i with _ | (_ | i)
    · rw [show ([w1T0, w1T1] : List TriQ).get? 0 = some w1T0 from rfl,
        Option.some.injEq] at hi
      subst hi
      exact ⟨0, Or.inl hu0, rfl⟩
    · rw [show ([w1T0, w1T1] : List TriQ).get? 1 = some w1T1 from rfl,
        Option.some.injEq] at hi
      subst hi
      exact ⟨1, Or.inr hu1, rfl⟩
    · rw [show ([w1T0, w1T1] : List TriQ).get? (i + 1 + 1) = none from rfl] at hi
      cases hi
  · intro i1 i2 tri1 tri2 t1 u1 v1 t2 u2 v2 hne h1 h2 hmt1 hmt2
    have hb1 : i1 < 2 := by
      rcases List.get?_eq_some.mp h1 with ⟨h, _⟩
      simpa using h
    have hb2 : i2 < 2 := by
      rcases List.get?_eq_some.mp h2 with ⟨h, _⟩
      simpa using h
    interval_cases i1 <;> interval_cases i2
    · exact absurd rfl hne
    · -- i1 = 0, i2 = 1
      rw [show ([w1T0, w1T1] : List TriQ).get? 0 = some w1T0 from rfl,
        Option.some.injEq] at h1
      rw [show ([w1T0, w1T1] : List TriQ).get? 1 = some w1T1 from rfl,
        Option.some.injEq] at h2
      subst h1; subst h2
      rw [hm0, Option.some.injEq, Prod.mk.injEq] at hmt1
      rw [hm1, Option.some.injEq, Prod.mk.injEq] at hmt2
      rw [← hmt1.1, ← hmt2.1]
      norm_num
    · -- i1 = 1, i2 = 0
      rw [show ([w1T0, w1T1] : List TriQ).get? 1 = some w1T1 from rfl,
        Option.some.injEq] at h1
      rw [show ([w1T0, w1T1] : List TriQ).get? 0 = some w1T0 from rfl,
        Option.some.injEq] at h2
      subst h1; subst h2
      rw [hm1, Option.some.injEq, Prod.mk.injEq] at hmt1
      rw [hm0, Option.some.injEq, Prod.mk.injEq] at hmt2
      rw [← hmt1.1, ← hmt2.1]
      norm_num
    · exact absurd rfl hne
  · rw [show pairSz w1bvh 1 1 = 2 from rfl]

/-- In any-hit mode the leaf scan either returns early at a slot whose
triangle genuinely intersects, or passes the incoming hit through
unchanged. -/
theorem leafScan_any (b : BvhQ) (ray : RayQ) :
    ∀ (cnt j : ℕ) (hit : HitQ) (H : HitQ) (e : Bool),
      leafScan b ray true j cnt hit = some (H, e) →
      (e = false ∧ H = hit) ∨
      (e = true ∧ ∃ (s : ℕ) (tri : TriQ) (t u v : ℚ),
        H = ⟨(s : Int), t, u, v⟩ ∧ b.tris.get? s = some tri ∧
        mtRaw ray tri = some (t, u, v)) := by
  intro cnt
  induction cnt with
  | zero =>
    intro j hit H e h
    rw [leafScan, Option.some.injEq, Prod.mk.injEq] at h
    exact Or.inl ⟨h.2.symm, h.1.symm⟩
  | succ n ih =>
    intro j hit H e h
    rw [leafScan] at h
    cases hg : b.tris.get? j with
    | none =>
      rw [hg] at h
      simp only [] at h
      cases h
    | some tri =>
      rw [hg] at h
      simp only [] at h
      cases hmt : intersect_ray_tri ray tri hit.t with
      | none =>
        rw [hmt] at h
        simp only [] at h
        exact ih (j + 1) hit H e h
      | some p =>
        obtain ⟨t, u, v⟩ := p
        rw [hmt] at h
        simp only [if_true, Option.some.injEq, Prod.mk.injEq] at h
        obtain ⟨hH, he⟩ := h
        refine Or.inr ⟨he.symm, j, tri, t, u, v, hH.symm, hg, ?_⟩
        exact (irt_some_iff.mp hmt).1

/-- The hit record names a slot of the `tris` array whose triangle the
ray genuinely intersects, with matching `t`, `u`, `v` — i.e. the record
was produced inside `INTERSECT_LEAF`, before any `prim_ids` remap. -/
def slotHit (b : BvhQ) (ray : RayQ) (H : HitQ) : Prop :=
  ∃ (s : ℕ) (tri : TriQ) (t u v : ℚ),
    H = ⟨(s : Int), t, u, v⟩ ∧ b.tris.get? s = some tri ∧
    mtRaw ray tri = some (t, u, v)

theorem processChildAny (b : BvhQ) (ray : RayQ) (iD oD : Vec3 ℚ)
    (dx dy dz : Bool) (nd : BvhNode) (h0 : HitQ) :
    (if (nd.intersect iD oD ray.tmin h0.t dx dy dz).1 ≤
        (nd.intersect iD oD ray.tmin h0.t dx dy dz).2 then
      if nd.is_leaf then
        (leafScan b ray true nd.cf.toNat nd.na.toNat h0).map
          (fun p => (p.1, p.2, (-1 : Int)))
      else some (h0, false, nd.cf)
    else some (h0, false, (-1 : Int))) = none ∨
    (∃ c0, (if (nd.intersect iD oD ray.tmin h0.t dx dy dz).1 ≤
        (nd.intersect iD oD ray.tmin h0.t dx dy dz).2 then
      if nd.is_leaf then
        (leafScan b ray true nd.cf.toNat nd.na.toNat h0).map
          (fun p => (p.1, p.2, (-1 : Int)))
      else some (h0, false, nd.cf)
    else some (h0, false, (-1 : Int))) = some (h0, false, c0)) ∨
    (∃ H1 c0, (if (nd.intersect iD oD ray.tmin h0.t dx dy dz).1 ≤
        (nd.intersect iD oD ray.tmin h0.t dx dy dz).2 then
      if nd.is_leaf then
        (leafScan b ray true nd.cf.toNat nd.na.toNat h0).map
          (fun p => (p.1, p.2, (-1 : Int)))
      else some (h0, false, nd.cf)
    else some (h0, false, (-1 : Int))) = some (H1, true, c0) ∧
      slotHit b ray H1) := by
  by_cases hslab : (nd.intersect iD oD ray.tmin h0.t dx dy dz).1 ≤
      (nd.intersect iD oD ray.tmin h0.t dx dy dz).2
  · rw [if_pos hslab]
    by_cases hlf : nd.is_leaf = true
    · rw [if_pos hlf]
      cases hls : leafScan b ray true nd.cf.toNat nd.na.toNat h0 with
      | none => exact Or.inl rfl
      | some p =>
        obtain ⟨H1, e1⟩ := p
        rcases leafScan_any b ray nd.na.toNat nd.cf.toNat h0 H1 e1 hls with
          ⟨rfl, rfl⟩ | ⟨rfl, s, tri, t, u, v, hH, hg, hm⟩
        · exact Or.inr (Or.inl ⟨-1, rfl⟩)
        · exact Or.inr (Or.inr ⟨H1, -1, rfl, s, tri, t, u, v, hH, hg, hm⟩)
    · rw [if_neg hlf]
      exact Or.inr (Or.inl ⟨nd.cf, rfl⟩)
  · rw [if_neg hslab]
    exact Or.inr (Or.inl ⟨-1, rfl⟩)

theorem travStep_any (b : BvhQ) (ray : RayQ) (iD oD : Vec3 ℚ) (dx dy dz : Bool)
    (top : Int) (stack : List Int) (hit : HitQ)
    (r : Sum (HitQ × Bool) (Int × List Int × HitQ))
    (h : travStep b ray true iD oD dx dy dz top stack hit = some r) :
    (∃ t s, r = Sum.inr (t, s, hit)) ∨
    (r = Sum.inl (hit, false)) ∨
    (∃ H, r = Sum.inl (H, true) ∧ slotHit b ray H) := by
  rw [travStep] at h
  by_cases htop : top < 0
  · rw [if_pos htop] at h
    cases h
  rw [if_neg htop] at h
  cases hgl : b.nodes.get? top.toNat with
  | none =>
    rw [hgl] at h
    cases hgr : b.nodes.get? (top.toNat + 1) with
    | none => rw [hgr] at h; simp only [] at h; exact Option.noConfusion h
    | some ndr => rw [hgr] at h; simp only [] at h; exact Option.noConfusion h
  | some ndl =>
    rw [hgl] at h
    cases hgr : b.nodes.get? (top.toNat + 1) with
    | none => rw [hgr] at h; simp only [] at h; exact Option.noConfusion h
    | some ndr =>
      rw [hgr] at h
      simp only [] at h
      rcases processChildAny b ray iD oD dx dy dz ndl hit with
        he1 | ⟨c0, he1⟩ | ⟨H1, c0, he1, hs1⟩
      · rw [he1] at h
        cases h
      · rw [he1] at h
        simp only [Bool.false_eq_true, if_false] at h
        rcases processChildAny b ray iD oD dx dy dz ndr hit with
          he2 | ⟨c1, he2⟩ | ⟨H2, c1, he2, hs2⟩
        · rw [he2] at h
          cases h
        · rw [he2] at h
          simp only [Bool.false_eq_true, if_false] at h
          by_cases hcc : 0 ≤ c0 ∧ 0 ≤ c1
          · rw [if_pos hcc] at h
            by_cases hcap : 64 ≤ stack.length
            · rw [if_pos hcap] at h
              cases h
            · rw [if_neg hcap, Option.some.injEq] at h
              exact Or.inl ⟨_, _, h.symm⟩
          · rw [if_neg hcc] at h
            by_cases hc1 : 0 ≤ c1
            · rw [if_pos hc1, Option.some.injEq] at h
              exact Or.inl ⟨_, _, h.symm⟩
            · rw [if_neg hc1] at h
              by_cases hc0 : 0 ≤ c0
              · rw [if_pos hc0, Option.some.injEq] at h
                exact Or.inl ⟨_, _, h.symm⟩
              · rw [if_neg hc0] at h
                cases stack with
                | nil =>
                  simp only [] at h
                  exact Option.noConfusion h
                | cons tt rest =>
                  simp only [] at h
                  by_cases htt : tt < 0
                  · rw [if_pos htt, Option.some.injEq] at h
                    exact Or.inr (Or.inl h.symm)
                  · rw [if_neg htt, Option.some.injEq] at h
                    exact Or.inl ⟨_, _, h.symm⟩
        · rw [he2] at h
          simp only [if_true, Option.some.injEq] at h
          exact Or.inr (Or.inr ⟨H2, h.symm, hs2⟩)
      · rw [he1] at h
        simp only [if_true, Option.some.injEq] at h
        exact Or.inr (Or.inr ⟨H1, h.symm, hs1⟩)

theorem travGo_any (b : BvhQ) (ray : RayQ) (iD oD : Vec3 ℚ) (dx dy dz : Bool) :
    ∀ (fuel : ℕ) (top : Int) (stack : List Int) (hit H : HitQ) (e : Bool),
      travGo b ray true iD oD dx dy dz fuel top stack hit = some (H, e) →
      (e = false ∧ H = hit) ∨ (e = true ∧ slotHit b ray H) := by
  intro fuel
  induction fuel with
  | zero =>
    intro top stack hit H e h
    cases h
  | succ f ih =>
    intro top stack hit H e h
    rw [travGo_succ] at h
    cases hstp : travStep b ray true iD oD dx dy dz top stack hit with
    | none => rw [hstp] at h; cases h
    | some r =>
      rw [hstp] at h
      rcases travStep_any b ray iD oD dx dy dz top stack hit r hstp with
        ⟨t, s, rfl⟩ | rfl | ⟨H1, rfl, hs⟩
      · simp only [] at h
        exact ih t s hit H e h
      · simp only [Option.some.injEq, Prod.mk.injEq] at h
        exact Or.inl ⟨h.2.symm, h.1.symm⟩
      · simp only [Option.some.injEq, Prod.mk.injEq] at h
        exact Or.inr ⟨h.2.symm, h.1 ▸ hs⟩

/-- If any-hit traversal reports a hit with a non-negative `tri` field,
that field is a raw leaf-slot index into `tris` (the early return skips
the `prim_ids` remap). -/
theorem traverse_any_slot (b : BvhQ) (ray : RayQ) (fuel : ℕ) (H : HitQ)
    (h : BvhQ.traverse true b ray fuel = some H) (hpos : 0 ≤ H.tri) :
    slotHit b ray H := by
  rw [BvhQ.traverse] at h
  cases hg : b.nodes.get? 0 with
  | none => rw [hg] at h; cases h
  | some root =>
    rw [hg] at h
    simp only [] at h
    cases hrun : travGo b ray true ⟨1 / ray.dir.x, 1 / ray.dir.y, 1 / ray.dir.z⟩
        (ray.org * ⟨1 / ray.dir.x, 1 / ray.dir.y, 1 / ray.dir.z⟩)
        (decide (0 < ray.dir.x)) (decide (0 < ray.dir.y)) (decide (0 < ray.dir.z))
        fuel root.cf [-1] ⟨-1, ray.tmax, 0, 0⟩ with
    | none => rw [hrun] at h; cases h
    | some p =>
      obtain ⟨h1, early⟩ := p
      rw [hrun] at h
      simp only [] at h
      rcases travGo_any b ray _ _ _ _ _ fuel root.cf [-1] ⟨-1, ray.tmax, 0, 0⟩
          h1 early hrun with ⟨rfl, rfl⟩ | ⟨rfl, hs⟩
      · simp only [Bool.false_eq_true, if_false] at h
        rw [if_neg (by norm_num : ¬ ((0 : Int) ≤ (⟨-1, ray.tmax, 0, 0⟩ : HitQ).tri))] at h
        rw [Option.some.injEq] at h
        subst h
        exact absurd hpos (by norm_num)
      · simp only [if_true, Option.some.injEq] at h
        subst h
        exact hs

/-- Same tree as `w1bvh` but with a non-identity `prim_ids` map, making
the slot-index/source-id distinction observable. -/
def c10bvh : BvhQ := ⟨[w1root, w1left, w1right], [5, 6], [w1T0, w1T1]⟩

theorem w1_mtRaw0 : mtRaw w1ray w1T0 = some (1, 1/8, 1/8) := by
  norm_num [mtRaw, w1ray, w1T0, Vec3.dot, Vec3.cross, Vec3.sub_def]

theorem w1_mtRaw1 : mtRaw w1ray w1T1 = some (3, 3/8, 3/8) := by
  norm_num [mtRaw, w1ray, w1T1, Vec3.dot, Vec3.cross, Vec3.sub_def]

theorem c10_irt0 : intersect_ray_tri w1ray w1T0 10 = some (1, 1/8, 1/8) := by
  simp only [intersect_ray_tri, w1_mtRaw0]
  norm_num

theorem c10_irt1 : intersect_ray_tri w1ray w1T1 1 = none := by
  simp only [intersect_ray_tri, w1_mtRaw1]
  norm_num

theorem c10_lsA : leafScan c10bvh w1ray true 0 1 ⟨-1, 10, 0, 0⟩
    = some (⟨0, 1, 1/8, 1/8⟩, true) := by
  rw [show (1 : ℕ) = 0 + 1 from rfl]
  simp only [leafScan, show c10bvh.tris.get? 0 = some w1T0 from rfl]
  rw [c10_irt0]
  norm_num

theorem c10_lsL : leafScan c10bvh w1ray false 0 1 ⟨-1, 10, 0, 0⟩
    = some (⟨0, 1, 1/8, 1/8⟩, false) := by
  rw [show (1 : ℕ) = 0 + 1 from rfl]
  simp only [leafScan, show c10bvh.tris.get? 0 = some w1T0 from rfl]
  rw [c10_irt0]
  norm_num [leafScan]

theorem c10_lsR : leafScan c10bvh w1ray false 1 1 ⟨0, 1, 1/8, 1/8⟩
    = some (⟨0, 1, 1/8, 1/8⟩, false) := by
  rw [show (1 : ℕ) = 0 + 1 from rfl]
  simp only [leafScan, show c10bvh.tris.get? (0 + 1) = some w1T1 from rfl]
  rw [c10_irt1]

theorem c10_slabL : w1left.intersect
    ⟨1 / w1ray.dir.x, 1 / w1ray.dir.y, 1 / w1ray.dir.z⟩
    (w1ray.org * ⟨1 / w1ray.dir.x, 1 / w1ray.dir.y, 1 / w1ray.dir.z⟩)
    0 10 (decide (0 < w1ray.dir.x)) (decide (0 < w1ray.dir.y))
    (decide (0 < w1ray.dir.z)) = (1, 1) := by
  norm_num [BvhNode.intersect, w1ray, w1left, Vec3.mul_def, decide_eq_true_eq]

theorem c10_slabR : w1right.intersect
    ⟨1 / w1ray.dir.x, 1 / w1ray.dir.y, 1 / w1ray.dir.z⟩
    (w1ray.org * ⟨1 / w1ray.dir.x, 1 / w1ray.dir.y, 1 / w1ray.dir.z⟩)
    0 10 (decide (0 < w1ray.dir.x)) (decide (0 < w1ray.dir.y))
    (decide (0 < w1ray.dir.z)) = (3, 3) := by
  norm_num [BvhNode.intersect, w1ray, w1right, Vec3.mul_def, decide_eq_true_eq]

theorem c10_stepA : travStep c10bvh w1ray true
    ⟨1 / w1ray.dir.x, 1 / w1ray.dir.y, 1 / w1ray.dir.z⟩
    (w1ray.org * ⟨1 / w1ray.dir.x, 1 / w1ray.dir.y, 1 / w1ray.dir.z⟩)
    (decide (0 < w1ray.dir.x)) (decide (0 < w1ray.dir.y)) (decide (0 < w1ray.dir.z))
    w1root.cf [-1] ⟨-1, 10, 0, 0⟩ = some (Sum.inl (⟨0, 1, 1/8, 1/8⟩, true)) := by
  simp only [travStep, show w1root.cf = (1 : Int) from rfl,
    show ((1 : Int)).toNat = 1 from rfl,
    show c10bvh.nodes.get? 1 = some w1left from rfl,
    show c10bvh.nodes.get? (1 + 1) = some w1right from rfl,
    show ((⟨-1, 10, 0, 0⟩ : HitQ)).t = 10 from rfl,
    show w1ray.tmin = (0 : ℚ) from rfl,
    c10_slabL, c10_slabR,
    show w1left.is_leaf = true from rfl, show w1right.is_leaf = true from rfl,
    show w1left.cf.toNat = 0 from rfl, show w1left.na.toNat = 1 from rfl,
    show w1right.cf.toNat = 1 from rfl, show w1right.na.toNat = 1 from rfl,
    c10_lsA, Option.map_some]
  norm_num

theorem c10_stepC : travStep c10bvh w1ray false
    ⟨1 / w1ray.dir.x, 1 / w1ray.dir.y, 1 / w1ray.dir.z⟩
    (w1ray.org * ⟨1 / w1ray.dir.x, 1 / w1ray.dir.y, 1 / w1ray.dir.z⟩)
    (decide (0 < w1ray.dir.x)) (decide (0 < w1ray.dir.y)) (decide (0 < w1ray.dir.z))
    w1root.cf [-1] ⟨-1, 10, 0, 0⟩ = some (Sum.inl (⟨0, 1, 1/8, 1/8⟩, false)) := by
  simp only [travStep, show w1root.cf = (1 : Int) from rfl,
    show ((1 : Int)).toNat = 1 from rfl,
    show c10bvh.nodes.get? 1 = some w1left from rfl,
    show c10bvh.nodes.get? (1 + 1) = some w1right from rfl,
    show ((⟨-1, 10, 0, 0⟩ : HitQ)).t = 10 from rfl,
    show w1ray.tmin = (0 : ℚ) from rfl,
    c10_slabL, c10_slabR,
    show w1left.is_leaf = true from rfl, show w1right.is_leaf = true from rfl,
    show w1left.cf.toNat = 0 from rfl, show w1left.na.toNat = 1 from rfl,
    show w1right.cf.toNat = 1 from rfl, show w1right.na.toNat = 1 from rfl,
    c10_lsL, Option.map_some]
  norm_num [c10_lsR, Option.map_some]

/-- C10: in any-hit mode the traversal returns from inside the leaf
scan, before the final `prim_ids` remap: any hit it reports with a
non-negative `tri` carries a raw leaf-slot index into `tris` (with the
slot's triangle genuinely intersected at the reported `t`, `u`, `v`),
not a source triangle id.  Concretely, on a tree whose `prim_ids` maps
slots 0,1 to source ids 5,6, the any-hit traversal reports `tri = 0`
(the slot) where the closest-hit traversal reports the remapped source
id `tri = 5` for the very same ray and hit. -/
theorem c10_anyhit_returns_slot_not_source_id :
    (∀ (b : BvhQ) (ray : RayQ) (fuel : ℕ) (H : HitQ),
      BvhQ.traverse true b ray fuel = some H → 0 ≤ H.tri → slotHit b ray H) ∧
    BvhQ.traverse true c10bvh w1ray 2 = some ⟨0, 1, 1/8, 1/8⟩ ∧
    BvhQ.traverse false c10bvh w1ray 2 = some ⟨5, 1, 1/8, 1/8⟩ := by
  refine ⟨fun b ray fuel H h hp => traverse_any_slot b ray fuel H h hp, ?_, ?_⟩
  · rw [show (2 : ℕ) = 1 + 1 from rfl]
    simp only [BvhQ.traverse, show c10bvh.nodes.get? 0 = some w1root from rfl]
    rw [show w1ray.tmax = (10 : ℚ) from rfl]
    rw [travGo_succ, c10_stepA]
    rfl
  · rw [show (2 : ℕ) = 1 + 1 from rfl]
    simp only [BvhQ.traverse, show c10bvh.nodes.get? 0 = some w1root from rfl]
    rw [show w1ray.tmax = (10 : ℚ) from rfl]
    rw [travGo_succ, c10_stepC]
    norm_num [show c10bvh.prim_ids[0]? = some 5 from rfl]

theorem c10_anyhit_returns_slot_not_source_id_witness :
    slotHit c10bvh w1ray ⟨0, 1, 1/8, 1/8⟩ ∧
    BvhQ.traverse true c10bvh w1ray 2 = some ⟨0, 1, 1/8, 1/8⟩ :=
  ⟨c10_anyhit_returns_slot_not_source_id.1 c10bvh w1ray 2 ⟨0, 1, 1/8, 1/8⟩
    c10_anyhit_returns_slot_not_source_id.2.1 (by norm_num),
   c10_anyhit_returns_slot_not_source_id.2.1⟩

/-- One box write of `Bvh::refit_parents` (src/bvh.cpp lines 525-527):
the node keeps its child link and prim count, and its box becomes the
exact componentwise union of its two children's boxes. -/
def refitNode (nd l r : BvhNode) : BvhNode :=
  ⟨Vec3.vmin l.mn r.mn, nd.cf, Vec3.vmax l.mx r.mx, nd.na⟩

/-- The `Bvh::refit_parents` loop (src/bvh.cpp lines 520-529): walk up
the `parents` array from `node_id`, rewriting every ancestor's box to
the union of its children's boxes; explicit fuel, with out-of-bounds
reads modelled as `none`. -/
def refitGo (parents : List ℕ) : ℕ → ℕ → List BvhNode → Option (List BvhNode)
  | 0, _, _ => none
  | fuel + 1, cur, nodes =>
    if cur = 0 then some nodes
    else
      match parents.get? cur with
      | none => none
      | some p =>
        match nodes.get? p with
        | none => none
        | some nd =>
          match nodes.get? nd.cf.toNat, nodes.get? (nd.cf.toNat + 1) with
          | some l, some r => refitGo parents fuel p (nodes.set p (refitNode nd l r))
          | _, _ => none

def refit_parents (nodes : List BvhNode) (parents : List ℕ)
    (node_id fuel : ℕ) : Option (List BvhNode) :=
  refitGo parents fuel node_id nodes

/-- The C4 invariant: every inner node's box contains both children's
boxes. -/
def containOK (nodes : List BvhNode) : Prop :=
  ∀ i nd, nodes.get? i = some nd → nd.is_leaf = false →
    ∀ l r, nodes.get? nd.cf.toNat = some l →
      nodes.get? (nd.cf.toNat + 1) = some r →
      boxSub l nd ∧ boxSub r nd

/-- The invariant, weakened at edges into slot `cur` (whose box an
earlier write may have grown). -/
def containExcept (nodes : List BvhNode) (cur : ℕ) : Prop :=
  ∀ i nd, nodes.get? i = some nd → nd.is_leaf = false →
    ∀ l r, nodes.get? nd.cf.toNat = some l →
      nodes.get? (nd.cf.toNat + 1) = some r →
      (nd.cf.toNat = cur ∨ boxSub l nd) ∧ (nd.cf.toNat + 1 = cur ∨ boxSub r nd)

theorem boxSub_refit_left (nd l r : BvhNode) : boxSub l (refitNode nd l r) :=
  ⟨min_le_left _ _, le_max_left _ _, min_le_left _ _, le_max_left _ _,
   min_le_left _ _, le_max_left _ _⟩

theorem boxSub_refit_right (nd l r : BvhNode) : boxSub r (refitNode nd l r) :=
  ⟨min_le_right _ _, le_max_right _ _, min_le_right _ _, le_max_right _ _,
   min_le_right _ _, le_max_right _ _⟩

theorem get?_set_same {l : List BvhNode} {i : ℕ} {a nd : BvhNode}
    (h : l.get? i = some nd) : (l.set i a).get? i = some a := by
  rw [List.get?_eq_getElem?]
  exact List.getElem?_set_self (List.get?_eq_some.mp h).1

theorem get?_set_other {l : List BvhNode} {i j : ℕ} {a : BvhNode} (h : i ≠ j) :
    (l.set i a).get? j = l.get? j := by
  rw [List.get?_eq_getElem?, List.getElem?_set_ne h, ← List.get?_eq_getElem?]

/-- One refit write moves the weakened edge from `cur` up to its unique
parent `p`. -/
theorem containExcept_step {nodes : List BvhNode} {cur p : ℕ} {nd l r : BvhNode}
    (hget : nodes.get? p = some nd)
    (hl : nodes.get? nd.cf.toNat = some l)
    (hr : nodes.get? (nd.cf.toNat + 1) = some r)
    (hs1 : nd.cf.toNat ≠ p) (hs2 : nd.cf.toNat + 1 ≠ p)
    (huniq : ∀ i nd', nodes.get? i = some nd' → nd'.is_leaf = false →
      (nd'.cf.toNat = cur ∨ nd'.cf.toNat + 1 = cur) → i = p)
    (hce : containExcept nodes cur) :
    containExcept (nodes.set p (refitNode nd l r)) p := by
  intro i ndi hgi hlfi li ri hgl hgr
  by_cases hip : i = p
  · subst hip
    rw [get?_set_same hget, Option.some.injEq] at hgi
    subst hgi
    rw [show (refitNode nd l r).cf = nd.cf from rfl] at hgl hgr
    rw [get?_set_other (Ne.symm hs1), hl, Option.some.injEq] at hgl
    rw [get?_set_other (Ne.symm hs2), hr, Option.some.injEq] at hgr
    subst hgl
    subst hgr
    exact ⟨Or.inr (boxSub_refit_left nd l r), Or.inr (boxSub_refit_right nd l r)⟩
  · have hgi0 : nodes.get? i = some ndi := by
      rw [get?_set_other (fun he => hip he.symm)] at hgi
      exact hgi
    have horigL : ∃ l0, nodes.get? ndi.cf.toNat = some l0 := by
      by_cases hclp : ndi.cf.toNat = p
      · exact ⟨nd, by rw [hclp]; exact hget⟩
      · refine ⟨li, ?_⟩
        rw [get?_set_other (fun he => hclp he.symm)] at hgl
        exact hgl
    have horigR : ∃ r0, nodes.get? (ndi.cf.toNat + 1) = some r0 := by
      by_cases hcrp : ndi.cf.toNat + 1 = p
      · exact ⟨nd, by rw [hcrp]; exact hget⟩
      · refine ⟨ri, ?_⟩
        rw [get?_set_other (fun he => hcrp he.symm)] at hgr
        exact hgr
    obtain ⟨l0, hl0⟩ := horigL
    obtain ⟨r0, hr0⟩ := horigR
    obtain ⟨hcl, hcr⟩ := hce i ndi hgi0 hlfi l0 r0 hl0 hr0
    constructor
    · by_cases hclp : ndi.cf.toNat = p
      · exact Or.inl hclp
      · rcases hcl with hcur | hsub
        · exact absurd (huniq i ndi hgi0 hlfi (Or.inl hcur)) hip
        · refine Or.inr ?_
          rw [get?_set_other (fun he => hclp he.symm), hl0, Option.some.injEq] at hgl
          subst hgl
          exact hsub
    · by_cases hcrp : ndi.cf.toNat + 1 = p
      · exact Or.inl hcrp
      · rcases hcr with hcur | hsub
        · exact absurd (huniq i ndi hgi0 hlfi (Or.inr hcur)) hip
        · refine Or.inr ?_
          rw [get?_set_other (fun he => hcrp he.symm), hr0, Option.some.injEq] at hgr
          subst hgr
          exact hsub

/-- If no inner node lists slot 0 as a child, a weakened edge into 0 is
vacuous. -/
theorem containExcept_root {nodes : List BvhNode}
    (hroot : ∀ i nd, nodes.get? i = some nd → nd.is_leaf = false →
      nd.cf.toNat ≠ 0)
    (hce : containExcept nodes 0) : containOK nodes := by
  intro i nd hgi hlf l r hgl hgr
  obtain ⟨hcl, hcr⟩ := hce i nd hgi hlf l r hgl hgr
  refine ⟨?_, ?_⟩
  · rcases hcl with h | h
    · exact absurd h (hroot i nd hgi hlf)
    · exact h
  · rcases hcr with h | h
    · exact absurd h (by omega)
    · exact h

/-- An upward parent chain with the well-formedness the refit walk
relies on: correct parent pointers, the parent a genuine inner node
whose child pair contains the current slot, no self-children, and
uniqueness of the parent link (no stale duplicate references the
current slot). -/
inductive RefitChain (parents : List ℕ) : List BvhNode → ℕ → ℕ → Prop where
  | root (nodes : List BvhNode) :
      (∀ i nd, nodes.get? i = some nd → nd.is_leaf = false → nd.cf.toNat ≠ 0) →
      RefitChain parents nodes 0 0
  | step (nodes : List BvhNode) (cur p n : ℕ) (nd l r : BvhNode) :
      cur ≠ 0 →
      parents.get? cur = some p →
      nodes.get? p = some nd →
      nd.is_leaf = false →
      (nd.cf.toNat = cur ∨ nd.cf.toNat + 1 = cur) →
      nodes.get? nd.cf.toNat = some l →
      nodes.get? (nd.cf.toNat + 1) = some r →
      nd.cf.toNat ≠ p →
      nd.cf.toNat + 1 ≠ p →
      (∀ i nd', nodes.get? i = some nd' → nd'.is_leaf = false →
        (nd'.cf.toNat = cur ∨ nd'.cf.toNat + 1 = cur) → i = p) →
      RefitChain parents (nodes.set p (refitNode nd l r)) p n →
      RefitChain parents nodes cur (n + 1)

set_option maxHeartbeats 800000 in
/-- C4: the box-refit walk `Bvh::refit_parents` — the mechanism by which
`Bvh::optimize`'s remove/reinsert steps maintain the build invariant —
restores full parent-child box containment: if containment holds
everywhere except possibly at edges into the modified slot `cur`, and
the parent chain from `cur` to the root is well-formed, then the walk
terminates (given fuel beyond the chain length) and EVERY inner node of
the resulting array contains the union of its two children's boxes. -/
theorem c4_refit_restores_containment :
    ∀ (n : ℕ) (nodes : List BvhNode) (parents : List ℕ) (cur fuel : ℕ),
      RefitChain parents nodes cur n →
      containExcept nodes cur →
      n < fuel →
      ∃ nodes', refit_parents nodes parents cur fuel = some nodes' ∧
        containOK nodes' := by
  intro n nodes parents cur fuel hchain
  induction hchain generalizing fuel with
  | root nodes hroot =>
    intro hce hfuel
    obtain ⟨f, rfl⟩ : ∃ f, fuel = f + 1 := ⟨fuel - 1, by omega⟩
    refine ⟨nodes, ?_, containExcept_root hroot hce⟩
    rw [refit_parents, refitGo, if_pos rfl]
  | step nodes cur p n nd l r hc0 hpar hget hlf hchild hl hr hs1 hs2 huniq _ ih =>
    intro hce hfuel
    obtain ⟨f, rfl⟩ : ∃ f, fuel = f + 1 := ⟨fuel - 1, by omega⟩
    obtain ⟨nodes', hrun, hok⟩ :=
      ih f (containExcept_step hget hl hr hs1 hs2 huniq hce) (by omega)
    refine ⟨nodes', ?_, hok⟩
    rw [refit_parents, refitGo, if_neg hc0]
    simp only [hpar, hget, hl, hr]
    exact hrun

/-- Concrete refit scenario: the left child's box has grown beyond the
root's stale box; one refit write restores containment. -/
def c4root : BvhNode := ⟨⟨0, 0, 0⟩, 1, ⟨1, 1, 1⟩, 0⟩

def c4left : BvhNode := ⟨⟨0, 0, 0⟩, 0, ⟨2, 2, 2⟩, 1⟩

def c4right : BvhNode := ⟨⟨0, 0, 0⟩, 1, ⟨1, 1, 1⟩, 1⟩

def c4nodes : List BvhNode := [c4root, c4left, c4right]

def c4parents : List ℕ := [0, 0, 0]

theorem c4_refit_restores_containment_witness :
    ∃ nodes', refit_parents c4nodes c4parents 1 2 = some nodes' ∧
      containOK nodes' := by
  refine c4_refit_restores_containment 1 c4nodes c4parents 1 2 ?_ ?_ (by norm_num)
  · refine RefitChain.step c4nodes 1 0 0 c4root c4left c4right (by norm_num) rfl rfl rfl
      (Or.inl rfl) rfl rfl
      (by rw [show c4root.cf.toNat = 1 from rfl]; norm_num)
      (by rw [show c4root.cf.toNat = 1 from rfl]; norm_num) ?_ ?_
    · intro i nd' hgi hlf hch
      rcases i with _ | (_ | (_ | i))
      · rfl
      · rw [show c4nodes.get? 1 = some c4left from rfl, Option.some.injEq] at hgi
        subst hgi
        rw [show c4left.is_leaf = true from rfl] at hlf
        exact Bool.noConfusion hlf
      · rw [show c4nodes.get? 2 = some c4right from rfl, Option.some.injEq] at hgi
        subst hgi
        rw [show c4right.is_leaf = true from rfl] at hlf
        exact Bool.noConfusion hlf
      · rw [show c4nodes.get? (i + 1 + 1 + 1) = none from rfl] at hgi
        cases hgi
    · refine RefitChain.root _ ?_
      intro i nd hgi hlf
      rcases i with _ | (_ | (_ | i))
      · rw [show (c4nodes.set 0 (refitNode c4root c4left c4right)).get? 0
          = some (refitNode c4root c4left c4right) from rfl, Option.some.injEq] at hgi
        subst hgi
        rw [show (refitNode c4root c4left c4right).cf.toNat = 1 from rfl]
        norm_num
      · rw [show (c4nodes.set 0 (refitNode c4root c4left c4right)).get? 1
          = some c4left from rfl, Option.some.injEq] at hgi
        subst hgi
        rw [show c4left.is_leaf = true from rfl] at hlf
        exact Bool.noConfusion hlf
      · rw [show (c4nodes.set 0 (refitNode c4root c4left c4right)).get? 2
          = some c4right from rfl, Option.some.injEq] at hgi
        subst hgi
        rw [show c4right.is_leaf = true from rfl] at hlf
        exact Bool.noConfusion hlf
      · rw [show (c4nodes.set 0 (refitNode c4root c4left c4right)).get? (i + 1 + 1 + 1)
          = none from rfl] at hgi
        cases hgi
  · intro i nd hgi hlf l r hgl hgr
    rcases i with _ | (_ | (_ | i))
    · rw [show c4nodes.get? 0 = some c4root from rfl, Option.some.injEq] at hgi
      subst hgi
      rw [show c4root.cf.toNat = 1 from rfl] at hgl hgr
      rw [show c4nodes.get? 1 = some c4left from rfl, Option.some.injEq] at hgl
      rw [show c4nodes.get? (1 + 1) = some c4right from rfl, Option.some.injEq] at hgr
      subst hgl
      subst hgr
      refine ⟨Or.inl rfl, Or.inr ?_⟩
      norm_num [boxSub, c4right, c4root]
    · rw [show c4nodes.get? 1 = some c4left from rfl, Option.some.injEq] at hgi
      subst hgi
      rw [show c4left.is_leaf = true from rfl] at hlf
      exact Bool.noConfusion hlf
    · rw [show c4nodes.get? 2 = some c4right from rfl, Option.some.injEq] at hgi
      subst hgi
      rw [show c4right.is_leaf = true from rfl] at hlf
      exact Bool.noConfusion hlf
    · rw [show c4nodes.get? (i + 1 + 1 + 1) = none from rfl] at hgi
      cases hgi
